import Mathlib

/-!
Verification of the qgis-odm-frontend repository (src/odm_connection.py,
src/odm_dialog.py) against its specification.

Modelling conventions (shallow embedding):
- Python strings are modelled as `List Char`; a text file is modelled as its
  list of lines (each line without the trailing newline).  This is faithful
  here because the serializer writes exactly one newline per line and no
  serialized field contains a newline.
- Python `float` values are modelled as exact rationals (`ℚ`): the code only
  parses decimal literals and re-prints them; binary rounding, `inf`, `nan`
  and underscore separators are outside the model.
- Qt widget state is modelled as plain record fields; `setValue`/`setChecked`/
  `setCurrentText` are modelled as field assignment, `value()` etc. as field
  projection.
- HTTP transport (the `requests` library) is modelled by oracles describing
  the observable behaviour of each request: either a transport exception, or
  a response with a status code and a body whose JSON decoding may itself
  fail.
-/

namespace ODM

/-! ### Python string primitives -/

/-- Python whitespace characters recognised by `str.split()` / `str.strip()`. -/
def isPySpace (c : Char) : Bool :=
  c == ' ' || c == '\t' || c == '\n' || c == '\r' || c == '\x0b' || c == '\x0c'

/-- Drop leading whitespace. -/
def dropLeading : List Char → List Char
  | [] => []
  | c :: cs => if isPySpace c then dropLeading cs else c :: cs

/-- Model of Python `str.strip()`: drop leading and trailing whitespace. -/
def pyStrip (l : List Char) : List Char :=
  (dropLeading (dropLeading l).reverse).reverse

/-- `a` occurs at the start of `b` (model of Python `str.startswith`). -/
def startsWithL : List Char → List Char → Bool
  | [], _ => true
  | _ :: _, [] => false
  | a :: as, b :: bs => a == b && startsWithL as bs

/-- `needle` occurs somewhere inside `hay` (model of Python `in` on strings). -/
def containsL (hay needle : List Char) : Bool :=
  match hay with
  | [] => startsWithL needle []
  | _ :: rest => startsWithL needle hay || containsL rest needle

/-- ASCII upper-casing of one character (model of Python `str.upper` on the
ASCII fragment that this code feeds it). -/
def pyUpperChar (c : Char) : Char := c.toUpper

/-- Accumulator-style worker for `pySplit`. `cur` holds the characters of the
token currently being read, in reverse order. -/
def pySplitAux : List Char → List Char → List (List Char)
  | [], cur => if cur.isEmpty then [] else [cur.reverse]
  | c :: rest, cur =>
    if isPySpace c then
      if cur.isEmpty then pySplitAux rest [] else cur.reverse :: pySplitAux rest []
    else
      pySplitAux rest (c :: cur)

/-- Model of Python `str.split()` with no argument: split on runs of
whitespace, producing no empty tokens. -/
def pySplit (l : List Char) : List (List Char) := pySplitAux l []

/-! ### Model of Python `float()` on decimal literals -/

/-- Decimal digit value of a character, if it is a digit. -/
def charDigit (c : Char) : Option ℕ :=
  if 48 ≤ c.toNat ∧ c.toNat ≤ 57 then some (c.toNat - 48) else none

/-- Character for a decimal digit. -/
def digitChar (d : ℕ) : Char := Char.ofNat (48 + d)

/-- Value of a big-endian digit list. -/
def digitsVal (ds : List ℕ) : ℕ := ds.foldl (fun a d => a * 10 + d) 0

/-- Split a list at the first character satisfying `p`; the second component
is `none` when no character satisfies `p`. -/
def splitAtFirst (p : Char → Bool) : List Char → List Char × Option (List Char)
  | [] => ([], none)
  | c :: rest =>
    if p c then ([], some rest)
    else
      let r := splitAtFirst p rest
      (c :: r.1, r.2)

/-- Consume an optional leading sign, returning the sign as `1` or `-1`. -/
def takeSign : List Char → ℤ × List Char
  | [] => (1, [])
  | c :: r =>
    if c = '+' then (1, r) else if c = '-' then (-1, r) else (1, c :: r)

/-- Digit values of a character list, `none` if any character is not a
decimal digit. -/
def mapDigits : List Char → Option (List ℕ)
  | [] => some []
  | c :: cs =>
    match charDigit c, mapDigits cs with
    | some d, some ds => some (d :: ds)
    | _, _ => none

/-- Parse a non-empty all-digit string as a natural number. -/
def parseUInt (l : List Char) : Option ℕ :=
  match mapDigits l with
  | some ds => if ds.isEmpty then none else some (digitsVal ds)
  | none => none

/-- Parse the mantissa part `sign? (digits [. digits?] | . digits)` of a
float literal, evaluated exactly over `ℚ`. -/
def parseMantissa (mant : List Char) : Option ℚ :=
  let sg := (takeSign mant).1
  let rest := (takeSign mant).2
  let ipart := (splitAtFirst (fun c => c == '.') rest).1
  let fpart := ((splitAtFirst (fun c => c == '.') rest).2).getD []
  match mapDigits ipart, mapDigits fpart with
  | some ids, some fds =>
    if ipart.isEmpty ∧ fpart.isEmpty then none
    else some ((sg : ℚ) * ((digitsVal ids : ℚ) + (digitsVal fds : ℚ) / 10 ^ fds.length))
  | _, _ => none

/-- Apply an exponent part `sign? digits` to a mantissa value. -/
def applyExp (m : ℚ) (es : List Char) : Option ℚ :=
  match parseUInt (takeSign es).2 with
  | some e => some (m * (10 : ℚ) ^ ((takeSign es).1 * (e : ℤ)))
  | none => none

/-- Model of Python `float(s)` on the decimal fragment of its grammar:
`sign? (digits [. digits?] | . digits) ([eE] sign? digits)?`, evaluated
exactly over `ℚ`.  (`inf`, `nan`, underscores in literals and surrounding
whitespace are outside the model; the code only applies this to
whitespace-free tokens.) -/
def pyFloat (s : List Char) : Option ℚ :=
  match parseMantissa (splitAtFirst (fun c => c == 'e' || c == 'E') s).1,
        (splitAtFirst (fun c => c == 'e' || c == 'E') s).2 with
  | none, _ => none
  | some m, none => some m
  | some m, some es => applyExp m es

/-- The rationals representable as Python decimal literals: denominator
divides a power of ten. -/
def IsDec (q : ℚ) : Prop := ∃ k : ℕ, (q.den : ℤ) ∣ 10 ^ k

/-- Smallest exponent found by bounded search such that `d` divides `10^k`
(`none` when the denominator has a prime factor other than 2 and 5). -/
def tenExp (d : ℕ) : Option ℕ :=
  (List.range (d + 1)).find? (fun k => decide (d ∣ 10 ^ k))

/-- Big-endian decimal digit characters of a natural number (empty for 0). -/
def natChars (n : ℕ) : List Char :=
  ((Nat.digits 10 n).reverse).map digitChar

/-- Big-endian decimal digit characters, printing 0 as "0". -/
def natChars0 (n : ℕ) : List Char :=
  if n = 0 then ['0'] else natChars n

/-- Model of Python float formatting (`f"{x}"` / `repr`) for the exact-decimal
value model: an exact decimal string with at least one digit on each side of
the decimal point.  (Python prints the shortest round-tripping decimal and may
use exponent notation; the model prints the full decimal expansion.  Both
print a single whitespace-free token that `float()` parses back to the same
value, which is the only property the code depends on.) -/
def printFloat (q : ℚ) : List Char :=
  match tenExp q.den with
  | none => ['0', '.', '0']   -- unreachable for values produced by pyFloat
  | some k =>
    let n : ℤ := q.num * ((10 ^ k : ℤ) / (q.den : ℤ))
    let sgn : List Char := if n < 0 then ['-'] else []
    let m := n.natAbs
    if k = 0 then
      sgn ++ natChars0 m ++ ['.', '0']
    else
      let ds := natChars m
      let pad := (if ds.length < k + 1 then List.replicate (k + 1 - ds.length) '0' else []) ++ ds
      sgn ++ pad.take (pad.length - k) ++ ['.'] ++ pad.drop (pad.length - k)

/-! ### GCP data model and file parser (src/odm_dialog.py) -/

/-- One ground control point record (the dict built in load_gcp_file /
add_gcp_point).  `gcp_name := []` models both a missing gcp_name key and an
empty-string value: the code only ever tests the key for truthiness. -/
structure GCPPoint where
  id : ℕ
  world_x : ℚ
  world_y : ℚ
  world_z : ℚ
  image_x : ℚ
  image_y : ℚ
  filename : List Char
  gcp_name : List Char
  line_num : ℕ
deriving DecidableEq, Repr

/-- _is_projection_line (src/odm_dialog.py lines 1372-1378). -/
def isProjectionLine (line : List Char) : Bool :=
  let l := pyStrip line
  startsWithL "+proj=".data l || startsWithL "EPSG:".data l ||
    containsL (l.map pyUpperChar) "UTM".data

/-- Classification of one data line by the loop body of load_gcp_file
(lines 1416-1470): skipped, accepted as a point, or rejected with one of the
four distinct warnings. -/
inductive LineClass where
  | skip : LineClass
  | point (wx wy wz ix iy : ℚ) (filename gname : List Char) : LineClass
  | errNumeric : LineClass
  | errIncomplete : LineClass
  | errFour : LineClass
  | errFieldCount : LineClass
deriving DecidableEq, Repr

/-- The loop body of load_gcp_file on one raw line: strip, skip blanks and
comments, split on whitespace and classify by field count, parsing the five
numeric fields with float(). -/
def classifyLine (line0 : List Char) : LineClass :=
  let line := pyStrip line0
  if line.isEmpty || startsWithL "#".data line then .skip
  else
    let parts := pySplit line
    let n := parts.length
    if 6 ≤ n then
      match pyFloat (parts.getD 0 []), pyFloat (parts.getD 1 []), pyFloat (parts.getD 2 []),
            pyFloat (parts.getD 3 []), pyFloat (parts.getD 4 []) with
      | some wx, some wy, some wz, some ix, some iy =>
        .point wx wy wz ix iy (parts.getD 5 []) (if 6 < n then parts.getD 6 [] else [])
      | _, _, _, _, _ => .errNumeric
    else if n = 4 then
      match pyFloat (parts.getD 1 []), pyFloat (parts.getD 2 []), pyFloat (parts.getD 3 []) with
      | some _, some _, some _ => .errIncomplete
      | _, _, _ => .errFour
    else .errFieldCount

/-- The data-line loop of load_gcp_file: `n` is the current 1-based line
number (enumerate(data_lines, start_line_num)), `acc` the points read so far
(each new point gets id `len(self.gcp_points) + 1`). -/
def parseFold : List (List Char) → ℕ → List GCPPoint → List GCPPoint
  | [], _, acc => acc
  | l :: ls, n, acc =>
    match classifyLine l with
    | .point wx wy wz ix iy fn gn =>
      parseFold ls (n + 1) (acc ++ [⟨acc.length + 1, wx, wy, wz, ix, iy, fn, gn, n⟩])
    | _ => parseFold ls (n + 1) acc

def EPSG4326 : List Char := "EPSG:4326".data

/-- Result of a successful load: the recorded projection and the point list. -/
structure LoadResult where
  projection : List Char
  points : List GCPPoint
deriving DecidableEq, Repr

/-- Pure core of load_gcp_file (lines 1395-1470) on the list of lines of the
file: `none` models the empty-file early return; otherwise the first line is
inspected with the projection heuristic and the remaining lines are parsed
starting at line number 2 (resp. all lines starting at 1). -/
def load_gcp_core (lines : List (List Char)) : Option LoadResult :=
  if lines.isEmpty then none
  else
    let first := pyStrip (lines.headD [])
    if isProjectionLine first then
      some ⟨first, parseFold lines.tail 2 []⟩
    else
      some ⟨EPSG4326, parseFold lines 1 []⟩

/-- Python str.join on a one-character separator. -/
def joinSep (sep : Char) : List (List Char) → List Char
  | [] => []
  | [f] => f
  | f :: fs => f ++ sep :: joinSep sep fs

/-- One serialized data line of save_gcp_file (lines 1515-1531): the five
numeric fields and the filename, tab-joined, with the gcp_name appended only
when it is truthy (non-empty). -/
def pointLine (g : GCPPoint) : List Char :=
  let fields := [printFloat g.world_x, printFloat g.world_y, printFloat g.world_z,
                 printFloat g.image_x, printFloat g.image_y, g.filename]
  joinSep '\t' (if g.gcp_name.isEmpty then fields else fields ++ [g.gcp_name])

/-- The fixed comment header written by save_gcp_file (lines 1509-1512). -/
def gcpHeaderComments : List (List Char) :=
  ["# GCP file generated by ODM Frontend".data,
   "# Compatible with OpenDroneMap/WebODM".data,
   "# Format: geo_x geo_y geo_z im_x im_y filename [gcp_name]".data,
   "# Fields separated by tabs".data]

/-- The lines written by save_gcp_file: projection (EPSG:4326 when none is
recorded), four comment lines, one line per point. -/
def save_gcp_lines (projection : List Char) (points : List GCPPoint) : List (List Char) :=
  (if projection.isEmpty then EPSG4326 else projection) ::
    (gcpHeaderComments ++ points.map pointLine)

/-- save_gcp_file including its empty-list early return (line 1488). -/
def save_gcp_file (projection : List Char) (points : List GCPPoint) :
    Option (List (List Char)) :=
  if points.isEmpty then none else some (save_gcp_lines projection points)

/-! ### In-memory GCP list operations -/

/-- The values collected by the Add/Edit GCP Point dialog. -/
structure GCPValues where
  world_x : ℚ
  world_y : ℚ
  world_z : ℚ
  image_x : ℚ
  image_y : ℚ
  filename : List Char
deriving DecidableEq, Repr

/-- add_gcp_point (lines 1644-1659): append a new point with
id = len(self.gcp_points) + 1 and line_num = 0; the dialog has no gcp_name
field. -/
def add_gcp_point (v : GCPValues) (pts : List GCPPoint) : List GCPPoint :=
  pts ++ [{ id := pts.length + 1, world_x := v.world_x, world_y := v.world_y,
            world_z := v.world_z, image_x := v.image_x, image_y := v.image_y,
            filename := v.filename, gcp_name := [], line_num := 0 }]

/-- gcp.update(values) in edit_gcp_point: overwrite the dialog-edited fields,
keep id, gcp_name and line_num. -/
def applyVals (v : GCPValues) (g : GCPPoint) : GCPPoint :=
  { g with world_x := v.world_x, world_y := v.world_y, world_z := v.world_z,
           image_x := v.image_x, image_y := v.image_y, filename := v.filename }

/-- edit_gcp_point (lines 1661-1742): update the first point whose id matches
(next(...) over the list); no match leaves the list unchanged. -/
def edit_gcp_point (gid : ℕ) (v : GCPValues) : List GCPPoint → List GCPPoint
  | [] => []
  | g :: gs => if g.id = gid then applyVals v g :: gs else g :: edit_gcp_point gid v gs

/-- The renumbering loop `for i, gcp in enumerate(self.gcp_points, 1):
gcp['id'] = i` of remove_gcp_point. -/
def renumberFrom (n : ℕ) : List GCPPoint → List GCPPoint
  | [] => []
  | g :: gs => { g with id := n } :: renumberFrom (n + 1) gs

/-- remove_gcp_point (lines 1747-1774): filter out the selected id, then
renumber the survivors 1..N. -/
def remove_gcp_point (gid : ℕ) (pts : List GCPPoint) : List GCPPoint :=
  renumberFrom 1 (pts.filter (fun g => g.id ≠ gid))

/-- The ids of `pts` are exactly `n, n+1, n+2, …` in list order. -/
def idsFrom (n : ℕ) : List GCPPoint → Bool
  | [] => true
  | g :: gs => g.id == n && idsFrom (n + 1) gs

/-- Invariant of the in-memory GCP list: ids are the dense sequence 1..N in
list order. -/
def denseIds (pts : List GCPPoint) : Bool := idsFrom 1 pts

/-! ### HTTP client wrapper (src/odm_connection.py) -/

/-- Outcome of one HTTP request as observed by the caller: a transport
exception, or a response with a status code and a body whose JSON decoding
may itself raise. -/
inductive HttpOutcome (α : Type) where
  | exc : HttpOutcome α
  | resp (status : ℕ) (body : Except Unit α) : HttpOutcome α

/-- One element of the /task/list response; `.get('uuid')` may be absent. -/
structure TaskItem where
  uuid : Option (List Char)
deriving DecidableEq, Repr

/-- An element of the list built by get_tasks: either the JSON body returned
by the per-task info request, or the minimal stub record. -/
inductive TaskEntry (α : Type) where
  | info (body : α)
  | stub (uuid : List Char) (name : List Char) (statusCode : ℤ) (progress : ℤ)
deriving DecidableEq

/-- The per-UUID enrichment loop of get_tasks (lines 98-115), run inside the
enclosing try: a transport exception or a JSON-decoding failure on a detail
request escapes as `.error` and discards everything accumulated so far. -/
def getTasksLoop (α : Type) (detail : List Char → HttpOutcome α) :
    List TaskItem → Except Unit (List (TaskEntry α))
  | [] => .ok []
  | it :: rest =>
    match it.uuid with
    | none => getTasksLoop α detail rest
    | some u =>
      match detail u with
      | .exc => .error ()
      | .resp s body =>
        if s = 200 then
          match body with
          | .ok j => (getTasksLoop α detail rest).map (fun l => .info j :: l)
          | .error _ => .error ()
        else
          (getTasksLoop α detail rest).map (fun l => .stub u "Task".data 0 0 :: l)

/-- get_tasks (lines 84-121): list the task UUIDs, enrich each via a detail
request, fall back to the stub on a non-200 detail response; any exception
anywhere is caught and yields `[]`, as does a non-200 list response. -/
def get_tasks (α : Type) (listOutcome : HttpOutcome (List TaskItem))
    (detail : List Char → HttpOutcome α) : List (TaskEntry α) :=
  match listOutcome with
  | .exc => []
  | .resp s body =>
    if s = 200 then
      match body with
      | .error _ => []
      | .ok items =>
        match getTasksLoop α detail items with
        | .ok l => l
        | .error _ => []
    else []

/-- Result of a Python call as seen by its caller: a returned value, or an
uncaught exception crossing the call boundary. -/
inductive PyResult (α : Type) where
  | ok (val : α)
  | raised
deriving DecidableEq, Repr

def exceptOk {α : Type} : Except Unit α → Bool
  | .ok _ => true
  | .error _ => false

/-- create_task (lines 35-82).  `openOutcome` gives the outcome of
`open(path, 'rb')` for each image path — these calls happen before the
try/except block, so a failure raises across the call boundary.  `options`
and `name` only shape the request payload, which the `postOutcome` oracle
already abstracts over. -/
def create_task (α : Type) (openOutcome : List Char → Except Unit Unit)
    (postOutcome : HttpOutcome α) (image_paths : List (List Char))
    (options : List (List Char × List Char)) (name : Option (List Char)) :
    PyResult (Option α) :=
  if image_paths.all (fun p => exceptOk (openOutcome p)) then
    PyResult.ok
      (match postOutcome with
       | .exc => none
       | .resp s body =>
         if s = 200 then
           match body with
           | .ok j => some j
           | .error _ => none
         else none)
  else PyResult.raised

/-! ### Status labels and polling (src/odm_dialog.py) -/

/-- Decimal rendering of a Python int (as in an f-string). -/
def intChars (z : ℤ) : List Char :=
  if z < 0 then '-' :: natChars0 z.natAbs else natChars0 z.natAbs

/-- Python dict.get with a default, for the int-keyed status tables. -/
def dictGet (m : List (ℤ × List Char)) (k : ℤ) (dflt : List Char) : List Char :=
  match m.find? (fun p => p.1 == k) with
  | some p => p.2
  | none => dflt

/-- The status_map literal of refresh_status (lines 1040-1046). -/
def statusMapRefresh : List (ℤ × List Char) :=
  [(10, "QUEUED".data), (20, "RUNNING".data), (30, "FAILED".data),
   (40, "COMPLETED".data), (50, "CANCELED".data)]

/-- status_map.get(status_code, f"UNKNOWN({status_code})") in refresh_status. -/
def statusLabelRefresh (code : ℤ) : List Char :=
  dictGet statusMapRefresh code ("UNKNOWN(".data ++ intChars code ++ ")".data)

/-- The duplicated status_map literal of load_projects (lines 599-605). -/
def statusMapProjects : List (ℤ × List Char) :=
  [(10, "QUEUED".data), (20, "RUNNING".data), (30, "FAILED".data),
   (40, "COMPLETED".data), (50, "CANCELED".data)]

/-- status_map.get(status_code, f"UNKNOWN({status_code})") in load_projects. -/
def statusLabelProjects (code : ℤ) : List Char :=
  dictGet statusMapProjects code ("UNKNOWN(".data ++ intChars code ++ ")".data)

/-- The status field of a task-info JSON object: a dict (with or without a
code key) or a direct integer code. -/
inductive StatusField where
  | dict (code : Option ℤ)
  | nonDict (code : ℤ)
deriving DecidableEq, Repr

/-- The fields of the task-info JSON consulted by refresh_status; `status b=
none` models a missing status key (the default `{}`). -/
structure TaskInfoJson where
  status : Option StatusField
  progress : ℤ
  name : List Char
  processingTime : ℤ
deriving DecidableEq, Repr

/-- Status-code extraction of refresh_status (lines 1029-1033):
task_info.get('status', {}), then .get('code', 0) if it is a dict. -/
def statusCodeOf (t : TaskInfoJson) : ℤ :=
  match t.status with
  | none => 0
  | some (.dict c) => c.getD 0
  | some (.nonDict c) => c

/-- Two-digit zero padding, as in f"{minutes:02d}". -/
def pad2 (n : ℤ) : List Char :=
  if 0 ≤ n ∧ n < 10 then '0' :: intChars n else intChars n

/-- The line appended to results_text by refresh_status (line 1065):
name, label, integer progress, optional mm:ss processing time (Python //
and % are floor division and modulo). -/
def formatStatusLine (t : TaskInfoJson) : List Char :=
  let timeStr :=
    if 0 < t.processingTime then
      " (".data ++ pad2 (t.processingTime.fdiv 60000) ++ ":".data ++
        pad2 ((t.processingTime.fdiv 1000).fmod 60) ++ ")".data
    else []
  t.name ++ ": ".data ++ statusLabelRefresh (statusCodeOf t) ++ " (".data ++
    intChars t.progress ++ "%)".data ++ timeStr

/-- The dialog state touched by refresh_status.  The polling timer is
modelled by `timerActive` (start_status_monitoring sets it, stop() clears
it). -/
structure UIState where
  current_project : Option (List Char)
  timerActive : Bool
  progressVisible : Bool
  resultsText : List (List Char)
  statusText : List (List Char)
deriving DecidableEq, Repr

/-- One poll tick: refresh_status (lines 1020-1074).  `getInfo` is the
outcome of self.odm.get_task_info(...) (None on any failure). -/
def refresh_status (getInfo : List Char → Option TaskInfoJson) (s : UIState) :
    UIState :=
  match s.current_project with
  | none => s
  | some u =>
    let s1 := { s with resultsText := ([] : List (List Char)) }
    match getInfo u with
    | none => s1
    | some t =>
      let code := statusCodeOf t
      let s2 :=
        if code = 20 then { s1 with progressVisible := true }
        else if code = 40 ∨ code = 30 ∨ code = 50 then { s1 with progressVisible := false }
        else s1
      let s3 := { s2 with resultsText := s2.resultsText ++ [formatStatusLine t] }
      if code = 40 then
        { s3 with statusText := s3.statusText ++ ["✓ Processing completed successfully!".data],
                  timerActive := false }
      else if code = 30 then
        { s3 with statusText := s3.statusText ++ ["✗ Processing failed!".data],
                  timerActive := false }
      else s3

/-! ### Preset configuration (apply_preset, src/odm_dialog.py lines 741-907) -/

/-- The option fields written by apply_preset.  Widget setters are modelled
as field assignment and getters as projection. -/
structure OptionsState where
  feature_extraction : String
  camera_lens : String
  quality : ℕ
  dsm : Bool
  dtm : Bool
  orthophoto : Bool
  reconstruction : String
  fov : ℕ
  pointcloud_density : String
  outlier_removal : Bool
  deviation : ℕ
  resolution : ℕ
  tile_size : String
  texture_mesh : Bool
  generate_video : Bool
  generate_report : Bool
  threads : ℕ
  memory_limit : ℕ
deriving DecidableEq, Repr

def presetDefault : OptionsState :=
  { feature_extraction := "medium", camera_lens := "auto", quality := 50,
    dsm := true, dtm := false, orthophoto := true, reconstruction := "high",
    fov := 60, pointcloud_density := "medium", outlier_removal := false,
    deviation := 5, resolution := 24, tile_size := "2048", texture_mesh := true,
    generate_video := false, generate_report := true, threads := 0, memory_limit := 8 }

def presetHighResolution : OptionsState :=
  { feature_extraction := "high", camera_lens := "auto", quality := 25,
    dsm := true, dtm := true, orthophoto := true, reconstruction := "high",
    fov := 60, pointcloud_density := "high", outlier_removal := false,
    deviation := 5, resolution := 12, tile_size := "2048", texture_mesh := true,
    generate_video := false, generate_report := true, threads := 0, memory_limit := 8 }

def presetFastOrthophoto : OptionsState :=
  { feature_extraction := "low", camera_lens := "auto", quality := 75,
    dsm := false, dtm := false, orthophoto := true, reconstruction := "medium",
    fov := 60, pointcloud_density := "low", outlier_removal := false,
    deviation := 5, resolution := 48, tile_size := "4096", texture_mesh := false,
    generate_video := false, generate_report := false, threads := 0, memory_limit := 8 }

def presetField : OptionsState :=
  { feature_extraction := "high", camera_lens := "perspective", quality := 30,
    dsm := true, dtm := false, orthophoto := true, reconstruction := "high",
    fov := 60, pointcloud_density := "medium", outlier_removal := false,
    deviation := 5, resolution := 16, tile_size := "2048", texture_mesh := false,
    generate_video := false, generate_report := true, threads := 0, memory_limit := 8 }

def presetDsmDtm : OptionsState :=
  { feature_extraction := "medium", camera_lens := "auto", quality := 50,
    dsm := true, dtm := true, orthophoto := true, reconstruction := "high",
    fov := 60, pointcloud_density := "medium", outlier_removal := true,
    deviation := 3, resolution := 24, tile_size := "2048", texture_mesh := true,
    generate_video := false, generate_report := true, threads := 0, memory_limit := 8 }

def preset3DModel : OptionsState :=
  { feature_extraction := "high", camera_lens := "auto", quality := 30,
    dsm := true, dtm := false, orthophoto := true, reconstruction := "high",
    fov := 60, pointcloud_density := "high", outlier_removal := false,
    deviation := 5, resolution := 16, tile_size := "2048", texture_mesh := true,
    generate_video := false, generate_report := true, threads := 0, memory_limit := 12 }

/-- The presets dict literal (lines 747-868). -/
def presets : List (String × OptionsState) :=
  [("Default", presetDefault), ("High Resolution", presetHighResolution),
   ("Fast Orthophoto", presetFastOrthophoto), ("Field", presetField),
   ("DSM+DTM", presetDsmDtm), ("3D Model", preset3DModel)]

/-- apply_preset: 'Custom' returns immediately; a known preset name assigns
every one of the 18 option fields from its table entry (all the guarded
widgets exist in the dialog, so every hasattr test passes); an unknown name
changes nothing. -/
def apply_preset (name : String) (s : OptionsState) : OptionsState :=
  if name = "Custom" then s
  else
    match presets.find? (fun p => p.1 == name) with
    | some p => p.2
    | none => s

/-! ### Statement-support definitions -/

/-- A non-empty whitespace-free character list (the shape of every token
returned by `pySplit`). -/
def goodToken (t : List Char) : Bool :=
  !t.isEmpty && t.all (fun c => !isPySpace c)

/-- The observable data of a GCP point apart from its id and source line
number: world coordinates, image coordinates, filename, optional label. -/
def dataOf (g : GCPPoint) : ℚ × ℚ × ℚ × ℚ × ℚ × List Char × List Char :=
  (g.world_x, g.world_y, g.world_z, g.image_x, g.image_y, g.filename, g.gcp_name)

/-- The UUIDs carried by a /task/list response. -/
def listedUuids (items : List TaskItem) : List (List Char) :=
  items.filterMap (fun it => it.uuid)

/-- The per-task detail request completes without raising: no transport
exception, and on a 200 response the body decodes. -/
def detailCompletes {α : Type} : HttpOutcome α → Bool
  | .exc => false
  | .resp s body => if s = 200 then exceptOk body else true

/-- The entry get_tasks builds for a listed UUID whose detail request
completes: the returned body on 200, the stub record otherwise (the `.exc`
case is arbitrary; it is ruled out by `detailCompletes`). -/
def detailEntry (α : Type) (detail : List Char → HttpOutcome α) (u : List Char) :
    TaskEntry α :=
  match detail u with
  | .resp s (.ok j) => if s = 200 then .info j else .stub u "Task".data 0 0
  | _ => .stub u "Task".data 0 0

/-- `l` has no leading whitespace (vacuous for `[]`). -/
def NoLead (l : List Char) : Prop := isPySpace (l.headD 'x') = false

/-- The facts about a GCP point that load_gcp_file guarantees and that the
save/load round trip relies on: the filename is a non-empty whitespace-free
token, the optional label is whitespace-free, and every coordinate is an
exact decimal value (the range of `pyFloat`). -/
def GoodPoint (g : GCPPoint) : Prop :=
  goodToken g.filename = true ∧ (∀ c ∈ g.gcp_name, isPySpace c = false) ∧
  IsDec g.world_x ∧ IsDec g.world_y ∧ IsDec g.world_z ∧ IsDec g.image_x ∧ IsDec g.image_y

/-- The status-code-to-label mapping exactly as the specification states it:
QUEUED for 10, RUNNING for 20, FAILED for 30, COMPLETED for 40, CANCELED for
50, and the string UNKNOWN(code) for every other code. -/
def specStatusLabel (code : ℤ) : List Char :=
  if code = 10 then "QUEUED".data
  else if code = 20 then "RUNNING".data
  else if code = 30 then "FAILED".data
  else if code = 40 then "COMPLETED".data
  else if code = 50 then "CANCELED".data
  else "UNKNOWN(".data ++ intChars code ++ ")".data

/-! ## Lemmas about the Python string primitives -/

theorem noLead_nil : NoLead [] := rfl

theorem noLead_cons {c : Char} {l : List Char} (h : isPySpace c = false) :
    NoLead (c :: l) := h

theorem dropLeading_eq_self {l : List Char} (h : NoLead l) : dropLeading l = l := by
  cases l with
  | nil => rfl
  | cons c cs =>
    simp only [NoLead, List.headD] at h
    simp [dropLeading, h]

theorem dropLeading_noLead (l : List Char) : NoLead (dropLeading l) := by
  induction l with
  | nil => exact noLead_nil
  | cons c cs ih =>
    by_cases h : isPySpace c = true
    · simpa [dropLeading, h] using ih
    · simp only [Bool.not_eq_true] at h
      simp [dropLeading, h, NoLead]

theorem dropLeading_suffix (l : List Char) : ∃ pre, l = pre ++ dropLeading l := by
  induction l with
  | nil => exact ⟨[], rfl⟩
  | cons c cs ih =>
    by_cases h : isPySpace c = true
    · obtain ⟨pre, hp⟩ := ih
      exact ⟨c :: pre, by simp [dropLeading, h, ← hp]⟩
    · simp only [Bool.not_eq_true] at h
      exact ⟨[], by simp [dropLeading, h]⟩

theorem noLead_of_append {a b : List Char} (h : NoLead (a ++ b)) : NoLead a := by
  cases a with
  | nil => exact noLead_nil
  | cons c cs => simpa [NoLead] using h

theorem pyStrip_eq_self {l : List Char} (h1 : NoLead l) (h2 : NoLead l.reverse) :
    pyStrip l = l := by
  unfold pyStrip
  rw [dropLeading_eq_self h1, dropLeading_eq_self h2, List.reverse_reverse]

theorem pyStrip_idem (l : List Char) : pyStrip (pyStrip l) = pyStrip l := by
  have hy : NoLead (dropLeading l) := dropLeading_noLead l
  have hz : NoLead (dropLeading (dropLeading l).reverse) :=
    dropLeading_noLead (dropLeading l).reverse
  obtain ⟨pre, hp⟩ := dropLeading_suffix (dropLeading l).reverse
  have hyz : dropLeading l =
      (dropLeading (dropLeading l).reverse).reverse ++ pre.reverse := by
    have := congrArg List.reverse hp
    simpa [List.reverse_append] using this
  have h1 : NoLead (dropLeading (dropLeading l).reverse).reverse :=
    noLead_of_append (hyz ▸ hy)
  have h2 : NoLead ((dropLeading (dropLeading l).reverse).reverse).reverse := by
    rw [List.reverse_reverse]; exact hz
  exact pyStrip_eq_self h1 h2

theorem pyStrip_nil : pyStrip [] = [] := rfl

/-! ## C5: status-code-to-label mapping -/

theorem statusLabelRefresh_eq_spec (code : ℤ) :
    statusLabelRefresh code = specStatusLabel code := by
  by_cases h1 : code = 10
  · subst h1; rfl
  by_cases h2 : code = 20
  · subst h2; rfl
  by_cases h3 : code = 30
  · subst h3; rfl
  by_cases h4 : code = 40
  · subst h4; rfl
  by_cases h5 : code = 50
  · subst h5; rfl
  have e1 : ((10 : ℤ) == code) = false := beq_eq_false_iff_ne.mpr (Ne.symm h1)
  have e2 : ((20 : ℤ) == code) = false := beq_eq_false_iff_ne.mpr (Ne.symm h2)
  have e3 : ((30 : ℤ) == code) = false := beq_eq_false_iff_ne.mpr (Ne.symm h3)
  have e4 : ((40 : ℤ) == code) = false := beq_eq_false_iff_ne.mpr (Ne.symm h4)
  have e5 : ((50 : ℤ) == code) = false := beq_eq_false_iff_ne.mpr (Ne.symm h5)
  simp [statusLabelRefresh, dictGet, statusMapRefresh, List.find?_cons, e1, e2, e3, e4, e5,
    specStatusLabel, h1, h2, h3, h4, h5]

/-- C5: The status-code-to-label mapping is total: for every integer code,
both copies of the status table (in refresh_status and in load_projects)
render QUEUED for 10, RUNNING for 20, FAILED for 30, COMPLETED for 40,
CANCELED for 50, and exactly UNKNOWN(code) for every other code. -/
theorem C5_status_label_total (code : ℤ) :
    statusLabelRefresh code = specStatusLabel code ∧
    statusLabelProjects code = specStatusLabel code :=
  ⟨statusLabelRefresh_eq_spec code, statusLabelRefresh_eq_spec code⟩

/-! ## C8: preset application -/

/-- C8: apply_preset with each of the six named presets sets every dependent
option field to exactly that preset's fixed table values (the whole options
state becomes the table entry), and apply_preset with "Custom" leaves every
field unchanged. -/
theorem C8_apply_preset :
    (∀ s, apply_preset "Default" s = presetDefault) ∧
    (∀ s, apply_preset "High Resolution" s = presetHighResolution) ∧
    (∀ s, apply_preset "Fast Orthophoto" s = presetFastOrthophoto) ∧
    (∀ s, apply_preset "Field" s = presetField) ∧
    (∀ s, apply_preset "DSM+DTM" s = presetDsmDtm) ∧
    (∀ s, apply_preset "3D Model" s = preset3DModel) ∧
    (∀ s, apply_preset "Custom" s = s) := by
  refine ⟨?_, ?_, ?_, ?_, ?_, ?_, ?_⟩ <;> intro s <;> rfl

/-! ## C3: polling stop on terminal status -/

/-- C3 (counterexample): a poll tick that observes the terminal status code
50 (CANCELED) does not stop the polling timer: with a task selected and the
timer active, refresh_status on a CANCELED task info leaves timerActive
true. -/
theorem C3_canceled_tick_keeps_timer :
    statusCodeOf ⟨some (.dict (some 50)), 0, [], 0⟩ = 50 ∧
    (refresh_status (fun _ => some ⟨some (.dict (some 50)), 0, [], 0⟩)
        ⟨some "u".data, true, true, [], []⟩).timerActive = true :=
  ⟨rfl, rfl⟩

/-- C3 (amended): refresh_status stops the polling timer exactly when it
observes status code 40 (COMPLETED) or 30 (FAILED); observing 50 (CANCELED)
— like every other code, a missing task info, or no selected task — leaves
the timer state unchanged. -/
theorem C3_timer_stop_characterization (getInfo : List Char → Option TaskInfoJson)
    (s : UIState) :
    (refresh_status getInfo s).timerActive =
      match s.current_project with
      | none => s.timerActive
      | some u =>
        match getInfo u with
        | none => s.timerActive
        | some t =>
          if statusCodeOf t = 40 ∨ statusCodeOf t = 30 then false else s.timerActive := by
  rcases hs : s.current_project with _ | u
  · simp [refresh_status, hs]
  rcases hg : getInfo u with _ | t
  · simp [refresh_status, hs, hg]
  simp only [refresh_status, hs, hg]
  by_cases h40 : statusCodeOf t = 40
  · simp [h40]
  by_cases h30 : statusCodeOf t = 30
  · simp [h40, h30]
  by_cases h20 : statusCodeOf t = 20
  · simp [h40, h30, h20]
  by_cases h50 : statusCodeOf t = 50
  · simp [h40, h30, h20, h50]
  · simp [h40, h30, h20, h50]

/-! ## C4: create_task error handling -/

/-- C4 (counterexample): create_task does not catch local file errors: with a
single image path whose open() fails, the exception crosses the call
boundary (the opens happen before the try/except block), even though the
server would have answered 200. -/
theorem C4_open_failure_raises :
    create_task ℕ (fun _ => .error ()) (.resp 200 (.ok 1)) ["img.jpg".data] [] none =
      .raised := rfl

/-- C4 (amended): when every image file opens successfully, create_task never
raises across its call boundary: it returns the parsed task record on a 200
response whose body decodes, and None on any other status, on a transport
exception, or on a 200 body that fails to decode. -/
theorem C4_create_task_total (α : Type) (openOutcome : List Char → Except Unit Unit)
    (post : HttpOutcome α) (paths : List (List Char))
    (opts : List (List Char × List Char)) (nm : Option (List Char))
    (h : ∀ p ∈ paths, exceptOk (openOutcome p) = true) :
    create_task α openOutcome post paths opts nm =
      .ok (match post with
           | .exc => none
           | .resp s body =>
             if s = 200 then
               match body with
               | .ok j => some j
               | .error _ => none
             else none) := by
  unfold create_task
  rw [if_pos (List.all_eq_true.mpr h)]

/-- Witness for C4 (amended) at a concrete input. -/
theorem C4_create_task_total_witness :
    create_task ℕ (fun _ => .ok ()) (.resp 200 (.ok 5)) ["a.jpg".data] [] none =
      .ok (some 5) := by
  rw [C4_create_task_total ℕ (fun _ => .ok ()) (.resp 200 (.ok 5)) ["a.jpg".data] [] none
    (by intro p hp; rfl)]
  rfl

/-! ## C2: get_tasks error handling -/

theorem listedUuids_cons_none {it : TaskItem} (rest : List TaskItem)
    (hu : it.uuid = none) : listedUuids (it :: rest) = listedUuids rest := by
  simp [listedUuids, List.filterMap_cons, hu]

theorem listedUuids_cons_some {it : TaskItem} {u : List Char} (rest : List TaskItem)
    (hu : it.uuid = some u) : listedUuids (it :: rest) = u :: listedUuids rest := by
  simp [listedUuids, List.filterMap_cons, hu]

theorem getTasksLoop_eq (α : Type) (detail : List Char → HttpOutcome α)
    (items : List TaskItem)
    (h : ∀ u ∈ listedUuids items, detailCompletes (detail u) = true) :
    getTasksLoop α detail items =
      .ok ((listedUuids items).map (detailEntry α detail)) := by
  induction items with
  | nil => rfl
  | cons it rest ih =>
    rcases hu : it.uuid with _ | u
    · have hrest : ∀ u ∈ listedUuids rest, detailCompletes (detail u) = true := by
        intro u hm; exact h u (by rw [listedUuids_cons_none rest hu]; exact hm)
      simp [getTasksLoop, hu, listedUuids_cons_none rest hu, ih hrest]
    · have hhead : detailCompletes (detail u) = true :=
        h u (by rw [listedUuids_cons_some rest hu]; exact List.mem_cons_self u _)
      have hrest : ∀ v ∈ listedUuids rest, detailCompletes (detail v) = true := by
        intro v hm
        exact h v (by rw [listedUuids_cons_some rest hu]; exact List.mem_cons_of_mem u hm)
      rcases hd : detail u with _ | ⟨s, body⟩
      · rw [hd] at hhead; exact absurd hhead (by simp [detailCompletes])
      by_cases hs : s = 200
      · subst hs
        rcases body with _ | j
        · rw [hd] at hhead; exact absurd hhead (by simp [detailCompletes, exceptOk])
        · simp [getTasksLoop, hu, hd, listedUuids_cons_some rest hu, ih hrest,
            detailEntry, Except.map]
      · rcases body with _ | j <;>
          simp [getTasksLoop, hu, hd, hs, listedUuids_cons_some rest hu, ih hrest,
            detailEntry, Except.map]

/-- C2 (counterexample): a 200 task-list response listing the single UUID "u"
whose per-item detail request raises a transport exception makes get_tasks
return the empty list — the listed UUID is omitted entirely rather than
replaced by the stub record. -/
theorem C2_detail_exception_omits_task :
    listedUuids [⟨some "u".data⟩] = ["u".data] ∧
    get_tasks ℕ (.resp 200 (.ok [⟨some "u".data⟩])) (fun _ => .exc) = [] :=
  ⟨rfl, rfl⟩

/-- C2 (amended): get_tasks is a total function of the observed server
behaviour (every exception is caught and yields a list), and whenever the
task-list request returns 200 with a decodable body and no per-item detail
request raises a transport exception or undecodable-200-body error, every
listed UUID appears in the result in order: a detail request answering 200
contributes its body, and one answering any other status contributes the
stub record (uuid, name "Task", status 0, progress 0). -/
theorem C2_get_tasks_stub_fallback (α : Type) (detail : List Char → HttpOutcome α)
    (items : List TaskItem)
    (h : ∀ u ∈ listedUuids items, detailCompletes (detail u) = true) :
    get_tasks α (.resp 200 (.ok items)) detail =
      (listedUuids items).map (detailEntry α detail) := by
  simp [get_tasks, getTasksLoop_eq α detail items h]

/-- Witness for C2 (amended) at a concrete input: one UUID answering 200, one
answering 404 (stub fallback), one item without a UUID (skipped). -/
theorem C2_get_tasks_stub_fallback_witness :
    get_tasks ℕ
      (.resp 200 (.ok [⟨some "u1".data⟩, ⟨none⟩, ⟨some "u2".data⟩]))
      (fun u => if u = "u1".data then .resp 200 (.ok 7) else .resp 404 (.error ())) =
      [.info 7, .stub "u2".data "Task".data 0 0] := by
  rw [C2_get_tasks_stub_fallback ℕ
    (fun u => if u = "u1".data then .resp 200 (.ok 7) else .resp 404 (.error ()))
    [⟨some "u1".data⟩, ⟨none⟩, ⟨some "u2".data⟩]
    (by decide)]
  decide

/-! ## C9: dense 1..N ids -/

theorem idsFrom_append {g : GCPPoint} (pts : List GCPPoint) (n : ℕ)
    (h : idsFrom n pts = true) (hg : g.id = n + pts.length) :
    idsFrom n (pts ++ [g]) = true := by
  induction pts generalizing n with
  | nil =>
    simp only [List.length_nil, Nat.add_zero] at hg
    simp [idsFrom, hg]
  | cons p ps ih =>
    simp only [idsFrom, Bool.and_eq_true] at h
    have := ih (n + 1) h.2 (by simp only [List.length_cons] at hg; omega)
    simp [idsFrom, h.1, this]

theorem parseFold_dense (ls : List (List Char)) :
    ∀ (n : ℕ) (acc : List GCPPoint), idsFrom 1 acc = true →
      idsFrom 1 (parseFold ls n acc) = true := by
  induction ls with
  | nil => intro n acc h; exact h
  | cons l ls ih =>
    intro n acc h
    cases hc : classifyLine l with
    | point wx wy wz ix iy fn gn =>
      have hap : idsFrom 1 (acc ++ [⟨acc.length + 1, wx, wy, wz, ix, iy, fn, gn, n⟩]) = true :=
        idsFrom_append acc 1 h (by simp [Nat.add_comm])
      simpa [parseFold, hc] using ih (n + 1) _ hap
    | skip => simpa [parseFold, hc] using ih (n + 1) acc h
    | errNumeric => simpa [parseFold, hc] using ih (n + 1) acc h
    | errIncomplete => simpa [parseFold, hc] using ih (n + 1) acc h
    | errFour => simpa [parseFold, hc] using ih (n + 1) acc h
    | errFieldCount => simpa [parseFold, hc] using ih (n + 1) acc h

theorem renumberFrom_dense (l : List GCPPoint) :
    ∀ n : ℕ, idsFrom n (renumberFrom n l) = true := by
  induction l with
  | nil => intro n; rfl
  | cons g gs ih => intro n; simp [renumberFrom, idsFrom, ih]

theorem idsFrom_edit (gid : ℕ) (v : GCPValues) (pts : List GCPPoint) :
    ∀ n : ℕ, idsFrom n (edit_gcp_point gid v pts) = idsFrom n pts := by
  induction pts with
  | nil => intro n; rfl
  | cons g gs ih =>
    intro n
    by_cases hg : g.id = gid
    · simp [edit_gcp_point, hg, idsFrom, applyVals]
    · simp [edit_gcp_point, hg, idsFrom, ih]

/-- C9: after every operation on the in-memory GCP list — loading a file,
adding a point, editing a point, removing a point — the point ids form the
dense sequence 1..N in list order; in particular removal renumbers all
surviving points. -/
theorem C9_ids_dense_invariant :
    (∀ lines r, load_gcp_core lines = some r → denseIds r.points = true) ∧
    (∀ v pts, denseIds pts = true → denseIds (add_gcp_point v pts) = true) ∧
    (∀ gid v pts, denseIds pts = true → denseIds (edit_gcp_point gid v pts) = true) ∧
    (∀ gid pts, denseIds (remove_gcp_point gid pts) = true) := by
  refine ⟨?_, ?_, ?_, ?_⟩
  · intro lines r h
    unfold load_gcp_core at h
    by_cases he : lines.isEmpty
    · simp [he] at h
    · cases hp : isProjectionLine (pyStrip (lines.head?.getD [])) <;>
        · simp [he, hp] at h
          subst h
          exact parseFold_dense _ _ _ rfl
  · intro v pts h
    unfold add_gcp_point denseIds
    exact idsFrom_append pts 1 h (by simp [Nat.add_comm])
  · intro gid v pts h
    unfold denseIds
    rw [idsFrom_edit]
    exact h
  · intro gid pts
    exact renumberFrom_dense _ 1

/-- Witness for C9 at concrete inputs, discharging each hypothesis. -/
theorem C9_ids_dense_invariant_witness :
    denseIds (add_gcp_point ⟨1, 2, 3, 4, 5, "a.jpg".data⟩
      [⟨1, 0, 0, 0, 0, 0, "b.jpg".data, [], 7⟩]) = true ∧
    denseIds (edit_gcp_point 1 ⟨9, 9, 9, 9, 9, "c.jpg".data⟩
      [⟨1, 0, 0, 0, 0, 0, "b.jpg".data, [], 7⟩]) = true := by
  constructor
  · exact C9_ids_dense_invariant.2.1 ⟨1, 2, 3, 4, 5, "a.jpg".data⟩
      [⟨1, 0, 0, 0, 0, 0, "b.jpg".data, [], 7⟩] rfl
  · exact C9_ids_dense_invariant.2.2.1 1 ⟨9, 9, 9, 9, 9, "c.jpg".data⟩
      [⟨1, 0, 0, 0, 0, 0, "b.jpg".data, [], 7⟩] rfl

/-! ## C7: projection-line heuristic -/

theorem isProjectionLine_pyStrip (x : List Char) :
    isProjectionLine (pyStrip x) =
      (startsWithL "+proj=".data (pyStrip x) || startsWithL "EPSG:".data (pyStrip x) ||
        containsL ((pyStrip x).map pyUpperChar) "UTM".data) := by
  unfold isProjectionLine
  rw [pyStrip_idem]

/-- C7: for every non-empty GCP file, if and only if the first line
(stripped) starts with "+proj=", starts with "EPSG:", or contains "UTM"
case-insensitively, that line is recorded as the projection and data parsing
starts at line 2; otherwise the projection defaults to EPSG:4326 and data
parsing starts at line 1. -/
theorem C7_projection_heuristic (lines : List (List Char)) (h : lines ≠ []) :
    ((startsWithL "+proj=".data (pyStrip (lines.headD [])) ||
      startsWithL "EPSG:".data (pyStrip (lines.headD [])) ||
      containsL ((pyStrip (lines.headD [])).map pyUpperChar) "UTM".data) = true →
        load_gcp_core lines = some ⟨pyStrip (lines.headD []), parseFold lines.tail 2 []⟩) ∧
    ((startsWithL "+proj=".data (pyStrip (lines.headD [])) ||
      startsWithL "EPSG:".data (pyStrip (lines.headD [])) ||
      containsL ((pyStrip (lines.headD [])).map pyUpperChar) "UTM".data) = false →
        load_gcp_core lines = some ⟨EPSG4326, parseFold lines 1 []⟩) := by
  have he : lines.isEmpty = false := by
    cases lines with
    | nil => exact absurd rfl h
    | cons a l => rfl
  constructor
  · intro hc
    unfold load_gcp_core
    rw [he]
    simp only [Bool.false_eq_true, if_false]
    rw [if_pos]
    rw [isProjectionLine_pyStrip]
    exact hc
  · intro hc
    unfold load_gcp_core
    rw [he]
    simp only [Bool.false_eq_true, if_false]
    rw [if_neg]
    rw [isProjectionLine_pyStrip, hc]
    exact Bool.false_ne_true

/-- Witness for C7 at concrete inputs: a recognised projection line, and a
file whose first line is data. -/
theorem C7_projection_heuristic_witness :
    load_gcp_core ["EPSG:32612".data, "# x".data] =
      some ⟨pyStrip "EPSG:32612".data, parseFold ["# x".data] 2 []⟩ ∧
    load_gcp_core [" hello ".data] =
      some ⟨EPSG4326, parseFold [" hello ".data] 1 []⟩ :=
  ⟨(C7_projection_heuristic ["EPSG:32612".data, "# x".data] (by decide)).1 (by decide),
   (C7_projection_heuristic [" hello ".data] (by decide)).2 (by decide)⟩

/-! ## Digit lemmas -/

theorem charDigit_digitChar {d : ℕ} (h : d < 10) : charDigit (digitChar d) = some d := by
  interval_cases d <;> decide

theorem digitChar_not_eE {d : ℕ} (h : d < 10) :
    ((digitChar d == 'e') || (digitChar d == 'E')) = false := by
  interval_cases d <;> decide

theorem digitChar_not_dot {d : ℕ} (h : d < 10) : (digitChar d == '.') = false := by
  interval_cases d <;> decide

theorem digitChar_ne_plus {d : ℕ} (h : d < 10) : digitChar d ≠ '+' := by
  interval_cases d <;> decide

theorem digitChar_ne_minus {d : ℕ} (h : d < 10) : digitChar d ≠ '-' := by
  interval_cases d <;> decide

theorem isPySpace_digitChar {d : ℕ} (h : d < 10) : isPySpace (digitChar d) = false := by
  interval_cases d <;> decide

theorem digitChar_ne_hash {d : ℕ} (h : d < 10) : digitChar d ≠ '#' := by
  interval_cases d <;> decide

theorem mapDigits_map_digitChar {ds : List ℕ} (h : ∀ d ∈ ds, d < 10) :
    mapDigits (ds.map digitChar) = some ds := by
  induction ds with
  | nil => rfl
  | cons d ds ih =>
    have h1 := charDigit_digitChar (h d (List.mem_cons_self _ _))
    have h2 := ih (fun x hx => h x (List.mem_cons_of_mem _ hx))
    simp [mapDigits, h1, h2]

theorem foldl_digits_eq (ds : List ℕ) : ∀ a : ℕ,
    ds.foldl (fun a d => a * 10 + d) a = a * 10 ^ ds.length + Nat.ofDigits 10 ds.reverse := by
  induction ds with
  | nil => intro a; simp [Nat.ofDigits]
  | cons d ds ih =>
    intro a
    simp only [List.foldl_cons, ih, List.reverse_cons, Nat.ofDigits_append,
      List.length_cons, List.length_reverse, Nat.ofDigits_singleton]
    ring

theorem digitsVal_eq_ofDigits (ds : List ℕ) : digitsVal ds = Nat.ofDigits 10 ds.reverse := by
  have := foldl_digits_eq ds 0
  simpa [digitsVal] using this

theorem digitsVal_natDigits (m : ℕ) : digitsVal (Nat.digits 10 m).reverse = m := by
  rw [digitsVal_eq_ofDigits, List.reverse_reverse, Nat.ofDigits_digits]

theorem digitsVal_append (a b : List ℕ) :
    digitsVal (a ++ b) = digitsVal a * 10 ^ b.length + digitsVal b := by
  unfold digitsVal
  rw [List.foldl_append, foldl_digits_eq, ← digitsVal_eq_ofDigits b]
  rfl

theorem digitsVal_replicate_zero (j : ℕ) (b : List ℕ) :
    digitsVal (List.replicate j 0 ++ b) = digitsVal b := by
  rw [digitsVal_append]
  have hz : digitsVal (List.replicate j 0) = 0 := by
    induction j with
    | zero => rfl
    | succ i ih =>
      have : List.replicate (i + 1) (0 : ℕ) = 0 :: List.replicate i 0 := rfl
      simpa [digitsVal, this] using ih
  simp [hz]

theorem natDigits_lt_10 {m d : ℕ} (hd : d ∈ Nat.digits 10 m) : d < 10 :=
  Nat.digits_lt_base (by norm_num) hd

theorem mapDigits_natChars (m : ℕ) :
    mapDigits (natChars m) = some ((Nat.digits 10 m).reverse) :=
  mapDigits_map_digitChar (fun d hd => natDigits_lt_10 (List.mem_reverse.mp hd))

theorem natChars0_ne_nil (m : ℕ) : natChars0 m ≠ [] := by
  by_cases hm : m = 0
  · subst hm; decide
  · simp only [natChars0, hm, if_false, natChars]
    simp [Nat.digits_ne_nil_iff_ne_zero, hm]

theorem natChars_chars {m : ℕ} {c : Char} (hc : c ∈ natChars m) :
    ∃ d, d < 10 ∧ c = digitChar d := by
  simp only [natChars, List.mem_map, List.mem_reverse] at hc
  obtain ⟨d, hd, rfl⟩ := hc
  exact ⟨d, natDigits_lt_10 hd, rfl⟩

theorem natChars0_chars {m : ℕ} {c : Char} (hc : c ∈ natChars0 m) :
    ∃ d, d < 10 ∧ c = digitChar d := by
  by_cases hm : m = 0
  · subst hm
    have : c = '0' := by simpa [natChars0] using hc
    exact ⟨0, by norm_num, by rw [this]; rfl⟩
  · rw [natChars0, if_neg hm] at hc
    exact natChars_chars hc

/-! ## splitAtFirst and takeSign lemmas -/

theorem splitAtFirst_eq_self {p : Char → Bool} {l : List Char}
    (h : ∀ c ∈ l, p c = false) : splitAtFirst p l = (l, none) := by
  induction l with
  | nil => rfl
  | cons c cs ih =>
    have h1 := h c (List.mem_cons_self _ _)
    have h2 := ih (fun x hx => h x (List.mem_cons_of_mem _ hx))
    simp [splitAtFirst, h1, h2]

theorem splitAtFirst_append {p : Char → Bool} {a : List Char} {m : Char} (b : List Char)
    (ha : ∀ c ∈ a, p c = false) (hm : p m = true) :
    splitAtFirst p (a ++ m :: b) = (a, some b) := by
  induction a with
  | nil => simp [splitAtFirst, hm]
  | cons c cs ih =>
    have h1 := ha c (List.mem_cons_self _ _)
    have h2 := ih (fun x hx => ha x (List.mem_cons_of_mem _ hx))
    simp [splitAtFirst, h1, h2]

theorem takeSign_minus (l : List Char) : takeSign ('-' :: l) = (-1, l) := by
  simp [takeSign]

theorem takeSign_no_sign {c : Char} (l : List Char) (h1 : c ≠ '+') (h2 : c ≠ '-') :
    takeSign (c :: l) = (1, c :: l) := by
  simp [takeSign, h1, h2]

theorem takeSign_sign (l : List Char) : (takeSign l).1 = 1 ∨ (takeSign l).1 = -1 := by
  cases l with
  | nil => left; rfl
  | cons c r =>
    by_cases h1 : c = '+'
    · left; simp [takeSign, h1]
    by_cases h2 : c = '-'
    · right; simp [takeSign, h1, h2]
    · left; simp [takeSign, h1, h2]

/-! ## IsDec: closure of the parser's value range -/

theorem isDec_of_eq_div {q : ℚ} (n : ℤ) (k : ℕ) (h : q = (n : ℚ) / 10 ^ k) : IsDec q := by
  refine ⟨k, ?_⟩
  have h3 : q = Rat.divInt n (10 ^ k) := by
    rw [Rat.divInt_eq_div, h]
    push_cast
    rfl
  rw [h3]
  exact Rat.den_dvd n (10 ^ k)

theorem q_eq_div (q : ℚ) (k : ℕ) (hk : (q.den : ℤ) ∣ 10 ^ k) :
    q = ((q.num * ((10 ^ k : ℤ) / q.den) : ℤ) : ℚ) / 10 ^ k := by
  have key : q.num * ((10 ^ k : ℤ) / q.den) * (q.den : ℤ) = q.num * 10 ^ k := by
    rw [mul_assoc, Int.ediv_mul_cancel hk]
  have hden : ((q.den : ℚ)) ≠ 0 := by exact_mod_cast q.den_nz
  rw [eq_div_iff (by positivity : ((10 : ℚ) ^ k) ≠ 0)]
  apply mul_right_cancel₀ hden
  have h1 : q * 10 ^ k * (q.den : ℚ) = (q.num : ℚ) * 10 ^ k := by
    rw [mul_right_comm, Rat.mul_den_eq_num]
  have h2 : ((q.num * ((10 ^ k : ℤ) / q.den) : ℤ) : ℚ) * (q.den : ℚ) =
      (q.num : ℚ) * 10 ^ k := by
    have hc := congrArg (fun z : ℤ => (z : ℚ)) key
    push_cast at hc ⊢
    linarith [hc]
  rw [h1, h2]

theorem isDec_rep {q : ℚ} (h : IsDec q) : ∃ (n : ℤ) (k : ℕ), q = (n : ℚ) / 10 ^ k := by
  obtain ⟨k, hk⟩ := h
  exact ⟨q.num * ((10 ^ k : ℤ) / q.den), k, q_eq_div q k hk⟩

theorem parseMantissa_isDec {mant : List Char} {q : ℚ}
    (h : parseMantissa mant = some q) : IsDec q := by
  simp only [parseMantissa] at h
  rcases hids : mapDigits (splitAtFirst (fun c => c == '.') (takeSign mant).2).1 with _ | ids <;>
    rcases hfds :
      mapDigits (((splitAtFirst (fun c => c == '.') (takeSign mant).2).2).getD []) with _ | fds <;>
    simp only [hids, hfds] at h <;> try exact Option.noConfusion h
  split at h
  · exact Option.noConfusion h
  · have hv : q = ((takeSign mant).1 : ℚ) *
        ((digitsVal ids : ℚ) + (digitsVal fds : ℚ) / 10 ^ fds.length) :=
      (Option.some_injective _ h).symm
    refine isDec_of_eq_div ((takeSign mant).1 * ((digitsVal ids : ℤ) * 10 ^ fds.length +
      (digitsVal fds : ℤ))) fds.length ?_
    rw [hv]
    have hpow : ((10 : ℚ) ^ fds.length) ≠ 0 := by positivity
    field_simp

theorem applyExp_isDec {m : ℚ} {es : List Char} {q : ℚ} (hm : IsDec m)
    (h : applyExp m es = some q) : IsDec q := by
  unfold applyExp at h
  rcases he : parseUInt (takeSign es).2 with _ | e <;> rw [he] at h
  · exact absurd h (by simp)
  obtain ⟨n, k, rfl⟩ := isDec_rep hm
  have hv : q = ((n : ℚ) / 10 ^ k) * (10 : ℚ) ^ ((takeSign es).1 * (e : ℤ)) :=
    (Option.some_injective _ h).symm
  rcases takeSign_sign es with hs | hs <;> rw [hs] at hv
  · refine isDec_of_eq_div (n * 10 ^ e) k ?_
    rw [hv]
    rw [one_mul, zpow_natCast]
    push_cast
    ring
  · refine isDec_of_eq_div n (k + e) ?_
    rw [hv]
    have : (-1 : ℤ) * (e : ℤ) = -(e : ℤ) := by ring
    rw [this, zpow_neg, zpow_natCast]
    rw [pow_add]
    have h1 : ((10 : ℚ) ^ k) ≠ 0 := by positivity
    have h2 : ((10 : ℚ) ^ e) ≠ 0 := by positivity
    field_simp

theorem pyFloat_isDec {s : List Char} {q : ℚ} (h : pyFloat s = some q) : IsDec q := by
  unfold pyFloat at h
  rcases hm : parseMantissa (splitAtFirst (fun c => c == 'e' || c == 'E') s).1 with _ | m <;>
    rcases hes : (splitAtFirst (fun c => c == 'e' || c == 'E') s).2 with _ | es <;>
    rw [hm, hes] at h
  · exact absurd h (by simp)
  · exact absurd h (by simp)
  · have : q = m := (Option.some_injective _ h).symm
    rw [this]
    exact parseMantissa_isDec hm
  · exact applyExp_isDec (parseMantissa_isDec hm) h

/-! ## tenExp: the printer finds a usable exponent -/

theorem tenExp_of_dvd {d : ℕ} (hd : d ≠ 0) (hex : ∃ k, d ∣ 10 ^ k) :
    ∃ k, tenExp d = some k ∧ d ∣ 10 ^ k := by
  obtain ⟨k0, hk0⟩ := hex
  have h10 : (10 : ℕ) ^ k0 = 2 ^ k0 * 5 ^ k0 := by
    rw [← Nat.mul_pow]
  rw [h10] at hk0
  obtain ⟨d1, d2, hd1, hd2, hmul⟩ := Nat.dvd_mul.mp hk0
  obtain ⟨a, ha, rfl⟩ := (Nat.dvd_prime_pow Nat.prime_two).mp hd1
  obtain ⟨b, hb, rfl⟩ := (Nat.dvd_prime_pow (by norm_num : Nat.Prime 5)).mp hd2
  have hdpos : 0 < d := Nat.pos_of_ne_zero hd
  have h2d : 2 ^ a ≤ d := Nat.le_of_dvd hdpos (hmul ▸ Dvd.intro _ rfl)
  have h5d : 5 ^ b ≤ d := Nat.le_of_dvd hdpos (hmul ▸ Dvd.intro_left _ rfl)
  have had : a ≤ d := le_trans (le_of_lt (Nat.lt_two_pow a)) h2d
  have hbd : b ≤ d :=
    le_trans (le_of_lt (lt_of_lt_of_le (Nat.lt_two_pow b)
      (Nat.pow_le_pow_left (by norm_num) b))) h5d
  have hdvd : d ∣ 10 ^ max a b := by
    have : (10 : ℕ) ^ max a b = 2 ^ max a b * 5 ^ max a b := by rw [← Nat.mul_pow]
    rw [this, ← hmul]
    exact Nat.mul_dvd_mul (Nat.pow_dvd_pow 2 (le_max_left a b))
      (Nat.pow_dvd_pow 5 (le_max_right a b))
  have hex2 : ∃ x ∈ List.range (d + 1), (decide (d ∣ 10 ^ x)) = true :=
    ⟨max a b, List.mem_range.mpr (by omega), by simpa using hdvd⟩
  have hsome : ((List.range (d + 1)).find? (fun k => decide (d ∣ 10 ^ k))).isSome :=
    List.find?_isSome.mpr hex2
  obtain ⟨k, hk⟩ := Option.isSome_iff_exists.mp hsome
  refine ⟨k, hk, ?_⟩
  simpa using List.find?_some hk

/-! ## Parsing a printed decimal gives back the value -/

theorem digitChar_zero : digitChar 0 = '0' := by decide

theorem natChars0_eq_map (m : ℕ) :
    ∃ ds : List ℕ, natChars0 m = ds.map digitChar ∧ (∀ d ∈ ds, d < 10) ∧
      digitsVal ds = m ∧ ds ≠ [] := by
  by_cases hm : m = 0
  · subst hm
    exact ⟨[0], by decide, by decide, rfl, by decide⟩
  · refine ⟨(Nat.digits 10 m).reverse, ?_,
      fun d hd => natDigits_lt_10 (List.mem_reverse.mp hd), digitsVal_natDigits m,
      by simp [Nat.digits_ne_nil_iff_ne_zero, hm]⟩
    rw [natChars0, if_neg hm]
    rfl

/-- The padded digit string built by printFloat for a positive exponent. -/
theorem pad_spec (m k : ℕ) :
    ∃ pdig : List ℕ,
      ((if (natChars m).length < k + 1 then
          List.replicate (k + 1 - (natChars m).length) '0' else []) ++ natChars m)
        = pdig.map digitChar ∧
      (∀ d ∈ pdig, d < 10) ∧ digitsVal pdig = m ∧ k + 1 ≤ pdig.length := by
  refine ⟨(if (natChars m).length < k + 1 then
      List.replicate (k + 1 - (natChars m).length) 0 else []) ++ (Nat.digits 10 m).reverse,
    ?_, ?_, ?_, ?_⟩
  · by_cases hlt : (natChars m).length < k + 1
    · rw [if_pos hlt, if_pos hlt, List.map_append, List.map_replicate, digitChar_zero]
      rfl
    · rw [if_neg hlt, if_neg hlt]
      rfl
  · intro d hd
    rcases List.mem_append.mp hd with hd | hd
    · have hd0 : d = 0 := by
        split at hd
        · exact List.eq_of_mem_replicate hd
        · simp at hd
      omega
    · exact natDigits_lt_10 (List.mem_reverse.mp hd)
  · by_cases hlt : (natChars m).length < k + 1
    · rw [if_pos hlt, digitsVal_replicate_zero, digitsVal_natDigits]
    · rw [if_neg hlt, List.nil_append, digitsVal_natDigits]
  · have hlen : (natChars m).length = (Nat.digits 10 m).reverse.length := by
      simp [natChars]
    by_cases hlt : (natChars m).length < k + 1
    · rw [if_pos hlt]
      simp only [List.length_append, List.length_replicate]
      omega
    · rw [if_neg hlt]
      simp only [List.nil_append]
      omega

theorem pyFloat_mantissa_only (l : List Char)
    (hl : ∀ c ∈ l, ((c == 'e') || (c == 'E')) = false) :
    pyFloat l = parseMantissa l := by
  simp only [pyFloat, splitAtFirst_eq_self hl]
  cases h : parseMantissa l <;> simp [h]

theorem parseMantissa_digits (neg : Prop) [Decidable neg] (A B : List ℕ) (hA : A ≠ [])
    (hAlt : ∀ d ∈ A, d < 10) (hBlt : ∀ d ∈ B, d < 10) :
    parseMantissa ((if neg then ['-'] else []) ++ (A.map digitChar ++ '.' :: B.map digitChar)) =
      some ((if neg then (-1 : ℚ) else 1) *
        ((digitsVal A : ℚ) + (digitsVal B : ℚ) / 10 ^ B.length)) := by
  obtain ⟨a, A', rfl⟩ := List.exists_cons_of_ne_nil hA
  have ha10 : a < 10 := hAlt a (List.mem_cons_self _ _)
  have hts : takeSign ((if neg then ['-'] else []) ++
      ((a :: A').map digitChar ++ '.' :: B.map digitChar)) =
      ((if neg then (-1 : ℤ) else 1),
        (a :: A').map digitChar ++ '.' :: B.map digitChar) := by
    by_cases hn : neg
    · simp only [if_pos hn, List.singleton_append]
      exact takeSign_minus _
    · simp only [if_neg hn, List.nil_append, List.map_cons, List.cons_append]
      exact takeSign_no_sign _ (digitChar_ne_plus ha10) (digitChar_ne_minus ha10)
  have hsp : splitAtFirst (fun c => c == '.') ((a :: A').map digitChar ++ '.' :: B.map digitChar) =
      ((a :: A').map digitChar, some (B.map digitChar)) := by
    apply splitAtFirst_append
    · intro c hc
      obtain ⟨d, hd, rfl⟩ := List.mem_map.mp hc
      exact digitChar_not_dot (hAlt d hd)
    · decide
  have hmapA : mapDigits ((a :: A').map digitChar) = some (a :: A') :=
    mapDigits_map_digitChar hAlt
  have hmapB : mapDigits (B.map digitChar) = some B := mapDigits_map_digitChar hBlt
  simp only [parseMantissa, hts, hsp, Option.getD_some, hmapA, hmapB]
  rw [if_neg (by simp)]
  by_cases hn : neg <;> simp [hn]

/-- Parsing the printed form of a decimal rational recovers the value. -/
theorem pyFloat_printFloat {q : ℚ} (h : IsDec q) : pyFloat (printFloat q) = some q := by
  have hNat : ∃ k, q.den ∣ 10 ^ k := by
    obtain ⟨k, hk⟩ := h
    exact ⟨k, by exact_mod_cast hk⟩
  obtain ⟨k, htE, hdvd⟩ := tenExp_of_dvd q.den_nz hNat
  have hdvdZ : (q.den : ℤ) ∣ 10 ^ k := by exact_mod_cast hdvd
  have hq : q = ((q.num * ((10 ^ k : ℤ) / q.den) : ℤ) : ℚ) / 10 ^ k := q_eq_div q k hdvdZ
  set n : ℤ := q.num * ((10 ^ k : ℤ) / q.den) with hn
  have habs : ((n.natAbs : ℚ)) = if n < 0 then -(n : ℚ) else (n : ℚ) := by
    have hA : ((n.natAbs : ℚ)) = |(n : ℚ)| := by
      norm_cast
      rw [Int.abs_eq_natAbs]
      simp only [Int.cast_natCast]
    rw [hA]
    by_cases hneg : n < 0
    · rw [if_pos hneg, abs_of_neg (show (n : ℚ) < 0 by exact_mod_cast hneg)]
    · rw [if_neg hneg, abs_of_nonneg (show (0 : ℚ) ≤ (n : ℚ) by exact_mod_cast not_lt.mp hneg)]
  have hsgnval : ∀ x : ℚ, ((if n < 0 then (-1 : ℚ) else 1) * ((n.natAbs : ℚ) * x)) =
      (n : ℚ) * x := by
    intro x
    by_cases hneg : n < 0
    · rw [if_pos hneg] at habs ⊢
      rw [habs]
      ring
    · rw [if_neg hneg] at habs ⊢
      rw [habs]
      ring
  simp only [printFloat, htE]
  by_cases hk0 : k = 0
  · subst hk0
    rw [if_pos rfl]
    obtain ⟨ds, hds, hlt, hval, hne⟩ := natChars0_eq_map n.natAbs
    rw [hds]
    have hshape : (if n < 0 then ['-'] else []) ++ ds.map digitChar ++ ['.', '0'] =
        (if n < 0 then ['-'] else []) ++
          (ds.map digitChar ++ '.' :: ([0] : List ℕ).map digitChar) := by
      simp [List.append_assoc, digitChar_zero]
    rw [hshape]
    have hchars : ∀ c ∈ (if n < 0 then ['-'] else []) ++
        (ds.map digitChar ++ '.' :: ([0] : List ℕ).map digitChar),
        ((c == 'e') || (c == 'E')) = false := by
      intro c hc
      rcases List.mem_append.mp hc with hc | hc
      · have hcm : c = '-' := by
          split at hc
          · simpa using hc
          · simp at hc
        rw [hcm]
        decide
      · rcases List.mem_append.mp hc with hc | hc
        · obtain ⟨d, hd, rfl⟩ := List.mem_map.mp hc
          exact digitChar_not_eE (hlt d hd)
        · rcases List.mem_cons.mp hc with rfl | hc
          · decide
          · obtain ⟨d, hd, rfl⟩ := List.mem_map.mp hc
            exact digitChar_not_eE
              (by have h0 : d = 0 := List.mem_singleton.mp hd; omega)
    rw [pyFloat_mantissa_only _ hchars,
      parseMantissa_digits (n < 0) ds [0] hne hlt
        (fun d hd => by have hd0 : d = 0 := List.mem_singleton.mp hd; omega)]
    congr 1
    have hd0 : digitsVal ([0] : List ℕ) = 0 := rfl
    rw [hd0, hval]
    have hq0 : q = (n : ℚ) := by
      rw [hq]
      norm_num
    rw [hq0]
    have hzc : ((0 : ℕ) : ℚ) = 0 := by norm_num
    rw [hzc, zero_div, add_zero]
    have hx := hsgnval 1
    rw [mul_one, mul_one] at hx
    exact hx
  · rw [if_neg hk0]
    obtain ⟨pdig, hpad, hlt, hval, hlen⟩ := pad_spec n.natAbs k
    rw [hpad]
    set t := (pdig.map digitChar).length - k with ht
    have hlenmap : (pdig.map digitChar).length = pdig.length := by simp
    have htp : t = pdig.length - k := by rw [ht, hlenmap]
    have htake : (pdig.map digitChar).take t = (pdig.take t).map digitChar := by
      rw [List.map_take]
    have hdrop : (pdig.map digitChar).drop t = (pdig.drop t).map digitChar := by
      rw [List.map_drop]
    have hAne : pdig.take t ≠ [] := by
      have : (pdig.take t).length = t := by
        rw [List.length_take]
        omega
      intro hcon
      rw [hcon] at this
      simp at this
      omega
    have hAlt : ∀ d ∈ pdig.take t, d < 10 := fun d hd => hlt d (List.take_subset t pdig hd)
    have hBlt : ∀ d ∈ pdig.drop t, d < 10 := fun d hd => hlt d (List.drop_subset t pdig hd)
    have hBlen : (pdig.drop t).length = k := by
      rw [List.length_drop]
      omega
    have hshape : (if n < 0 then ['-'] else []) ++ (pdig.map digitChar).take t ++ ['.'] ++
        (pdig.map digitChar).drop t =
        (if n < 0 then ['-'] else []) ++
          ((pdig.take t).map digitChar ++ '.' :: (pdig.drop t).map digitChar) := by
      rw [htake, hdrop]
      simp [List.append_assoc]
    rw [hshape]
    have hchars : ∀ c ∈ (if n < 0 then ['-'] else []) ++
        ((pdig.take t).map digitChar ++ '.' :: (pdig.drop t).map digitChar),
        ((c == 'e') || (c == 'E')) = false := by
      intro c hc
      rcases List.mem_append.mp hc with hc | hc
      · have hcm : c = '-' := by
          split at hc
          · simpa using hc
          · simp at hc
        rw [hcm]
        decide
      · rcases List.mem_append.mp hc with hc | hc
        · obtain ⟨d, hd, rfl⟩ := List.mem_map.mp hc
          exact digitChar_not_eE (hAlt d hd)
        · rcases List.mem_cons.mp hc with rfl | hc
          · decide
          · obtain ⟨d, hd, rfl⟩ := List.mem_map.mp hc
            exact digitChar_not_eE (hBlt d hd)
    rw [pyFloat_mantissa_only _ hchars,
      parseMantissa_digits (n < 0) (pdig.take t) (pdig.drop t) hAne hAlt hBlt]
    congr 1
    have hsplitval : digitsVal (pdig.take t) * 10 ^ k + digitsVal (pdig.drop t) = n.natAbs := by
      have := digitsVal_append (pdig.take t) (pdig.drop t)
      rw [List.take_append_drop, hBlen] at this
      omega
    have hIF : (digitsVal (pdig.take t) : ℚ) + (digitsVal (pdig.drop t) : ℚ) /
        10 ^ (pdig.drop t).length = (n.natAbs : ℚ) / 10 ^ k := by
      rw [hBlen]
      have hpow : ((10 : ℚ) ^ k) ≠ 0 := by positivity
      field_simp
      exact_mod_cast congrArg (fun z : ℕ => (z : ℚ)) hsplitval
    rw [hIF]
    rw [div_eq_mul_inv, hsgnval, ← div_eq_mul_inv]
    exact hq.symm

/-! ## Shape of printed floats -/

theorem printFloat_chars {q : ℚ} {c : Char} (hc : c ∈ printFloat q) :
    c = '-' ∨ c = '.' ∨ ∃ d, d < 10 ∧ c = digitChar d := by
  rcases htE : tenExp q.den with _ | k <;> simp only [printFloat, htE] at hc
  · have h3 : c = '0' ∨ c = '.' ∨ c = '0' := by simpa using hc
    rcases h3 with rfl | rfl | rfl
    · exact Or.inr (Or.inr ⟨0, by norm_num, digitChar_zero.symm⟩)
    · exact Or.inr (Or.inl rfl)
    · exact Or.inr (Or.inr ⟨0, by norm_num, digitChar_zero.symm⟩)
  · by_cases hk0 : k = 0 <;> [rw [if_pos hk0] at hc; rw [if_neg hk0] at hc]
    · rcases List.mem_append.mp hc with hc2 | hc2
      · rcases List.mem_append.mp hc2 with hc3 | hc3
        · left
          split at hc3
          · simpa using hc3
          · simp at hc3
        · obtain ⟨d, hd, rfl⟩ := natChars0_chars hc3
          exact Or.inr (Or.inr ⟨d, hd, rfl⟩)
      · have h3 : c = '.' ∨ c = '0' := by simpa using hc2
        rcases h3 with rfl | rfl
        · exact Or.inr (Or.inl rfl)
        · exact Or.inr (Or.inr ⟨0, by norm_num, digitChar_zero.symm⟩)
    · have hpadmem : ∀ x ∈ ((if (natChars (q.num * ((10 ^ k : ℤ) / q.den)).natAbs).length < k + 1
          then List.replicate
            (k + 1 - (natChars (q.num * ((10 ^ k : ℤ) / q.den)).natAbs).length) '0'
          else []) ++ natChars (q.num * ((10 ^ k : ℤ) / q.den)).natAbs),
          x = '-' ∨ x = '.' ∨ ∃ d, d < 10 ∧ x = digitChar d := by
        intro x hx
        rcases List.mem_append.mp hx with hx | hx
        · have h0 : x = '0' := by
            split at hx
            · exact List.eq_of_mem_replicate hx
            · simp at hx
          exact Or.inr (Or.inr ⟨0, by norm_num, by rw [h0, digitChar_zero]⟩)
        · obtain ⟨d, hd, rfl⟩ := natChars_chars hx
          exact Or.inr (Or.inr ⟨d, hd, rfl⟩)
      rcases List.mem_append.mp hc with hc2 | hc2
      · rcases List.mem_append.mp hc2 with hc3 | hc3
        · rcases List.mem_append.mp hc3 with hc4 | hc4
          · left
            split at hc4
            · simpa using hc4
            · simp at hc4
          · exact hpadmem c (List.take_subset _ _ hc4)
        · exact Or.inr (Or.inl (by simpa using hc3))
      · exact hpadmem c (List.drop_subset _ _ hc2)

theorem printFloat_nospace {q : ℚ} {c : Char} (hc : c ∈ printFloat q) :
    isPySpace c = false := by
  rcases printFloat_chars hc with rfl | rfl | ⟨d, hd, rfl⟩
  · decide
  · decide
  · exact isPySpace_digitChar hd

theorem printFloat_ne_nil (q : ℚ) : printFloat q ≠ [] := by
  rcases htE : tenExp q.den with _ | k <;> simp only [printFloat, htE]
  · simp
  · by_cases hk0 : k = 0 <;> [rw [if_pos hk0]; rw [if_neg hk0]] <;> simp

theorem printFloat_goodToken (q : ℚ) : goodToken (printFloat q) = true := by
  have h1 : (printFloat q).isEmpty = false := by
    rw [List.isEmpty_eq_false_iff_exists_mem]
    obtain ⟨c, r, hcr⟩ := List.exists_cons_of_ne_nil (printFloat_ne_nil q)
    exact ⟨c, by rw [hcr]; exact List.mem_cons_self _ _⟩
  have h2 : (printFloat q).all (fun c => !isPySpace c) = true := by
    rw [List.all_eq_true]
    intro c hc
    rw [printFloat_nospace hc]
    rfl
  simp [goodToken, h1, h2]

theorem printFloat_head_no_hash (q : ℚ) :
    ∃ c r, printFloat q = c :: r ∧ c ≠ '#' ∧ isPySpace c = false := by
  obtain ⟨c, r, hcr⟩ := List.exists_cons_of_ne_nil (printFloat_ne_nil q)
  refine ⟨c, r, hcr, ?_, ?_⟩
  · have hc : c ∈ printFloat q := by rw [hcr]; exact List.mem_cons_self _ _
    rcases printFloat_chars hc with rfl | rfl | ⟨d, hd, rfl⟩
    · decide
    · decide
    · exact digitChar_ne_hash hd
  · exact printFloat_nospace (by rw [hcr]; exact List.mem_cons_self _ _)

/-! ## pySplit on tab-joined good tokens -/

theorem pySplitAux_token {tok : List Char} (htok : ∀ c ∈ tok, isPySpace c = false) :
    ∀ (rest cur : List Char),
      pySplitAux (tok ++ rest) cur = pySplitAux rest (tok.reverse ++ cur) := by
  induction tok with
  | nil => intro rest cur; simp
  | cons c cs ih =>
    intro rest cur
    have hc := htok c (List.mem_cons_self _ _)
    simp only [List.cons_append, pySplitAux, hc, Bool.false_eq_true, if_false,
      List.append_eq]
    rw [ih (fun x hx => htok x (List.mem_cons_of_mem _ hx)) rest (c :: cur)]
    simp [List.append_assoc]

theorem pySplitAux_space {c : Char} (hc : isPySpace c = true) (rest cur : List Char) :
    pySplitAux (c :: rest) cur =
      if cur.isEmpty then pySplitAux rest [] else cur.reverse :: pySplitAux rest [] := by
  simp [pySplitAux, hc]

theorem pySplit_joinSep_suffix {s : List Char} (hs : pySplitAux s [] = [])
    (hh : s = [] ∨ isPySpace (s.headD 'x') = true) :
    ∀ fields : List (List Char), fields ≠ [] →
      (∀ f ∈ fields, goodToken f = true) →
      pySplitAux (joinSep '\t' fields ++ s) [] = fields := by
  intro fields
  induction fields with
  | nil => intro h; exact absurd rfl h
  | cons f fs ih =>
    intro _ hf
    have hfg := hf f (List.mem_cons_self _ _)
    have hfne : f ≠ [] := by
      simp only [goodToken, Bool.and_eq_true, Bool.not_eq_true'] at hfg
      simpa [List.isEmpty_iff] using hfg.1
    have hfns : ∀ c ∈ f, isPySpace c = false := by
      simp only [goodToken, Bool.and_eq_true, List.all_eq_true] at hfg
      intro c hc
      simpa using hfg.2 c hc
    have hfrne : f.reverse ≠ [] := by simpa using hfne
    cases fs with
    | nil =>
      show pySplitAux (f ++ s) [] = [f]
      rw [pySplitAux_token hfns s []]
      rcases hh with rfl | hh
      · simp [pySplitAux, List.isEmpty_iff, hfrne]
      · have hsne : s ≠ [] := by
          intro hcon
          rw [hcon] at hh
          exact absurd hh (by decide)
        obtain ⟨c, s', rfl⟩ := List.exists_cons_of_ne_nil hsne
        have hcs : isPySpace c = true := by simpa using hh
        rw [List.append_nil, pySplitAux_space hcs s' f.reverse,
          if_neg (by simpa [List.isEmpty_iff] using hfrne)]
        have hs' : pySplitAux s' [] = [] := by
          have := pySplitAux_space hcs s' []
          simp only [List.isEmpty_nil, if_pos] at this
          rw [← this]
          exact hs
        rw [hs', List.reverse_reverse]
    | cons g gs =>
      have hjoin : joinSep '\t' (f :: g :: gs) ++ s =
          f ++ '\t' :: (joinSep '\t' (g :: gs) ++ s) := by
        show (f ++ '\t' :: joinSep '\t' (g :: gs)) ++ s = _
        simp [List.append_assoc]
      rw [hjoin, pySplitAux_token hfns _ [],
        List.append_nil, pySplitAux_space (by decide) _ f.reverse,
        if_neg (by simpa [List.isEmpty_iff] using hfrne), List.reverse_reverse]
      rw [ih (by simp) (fun x hx => hf x (List.mem_cons_of_mem _ hx))]

theorem pySplit_joinSep {fields : List (List Char)} (hne : fields ≠ [])
    (hf : ∀ f ∈ fields, goodToken f = true) :
    pySplit (joinSep '\t' fields) = fields := by
  have := @pySplit_joinSep_suffix [] rfl (Or.inl rfl) fields hne hf
  simpa [pySplit] using this

theorem goodToken_reverse_of {cur : List Char} (hcurne : cur ≠ [])
    (hcur : ∀ c ∈ cur, isPySpace c = false) : goodToken cur.reverse = true := by
  simp only [goodToken, Bool.and_eq_true, List.all_eq_true]
  constructor
  · simp [List.isEmpty_iff, hcurne]
  · intro c hc
    simp only [Bool.not_eq_true']
    exact hcur c (List.mem_reverse.mp hc)

theorem pySplitAux_goodTokens : ∀ (l cur : List Char),
    (∀ c ∈ cur, isPySpace c = false) →
    ∀ t ∈ pySplitAux l cur, goodToken t = true := by
  intro l
  induction l with
  | nil =>
    intro cur hcur t ht
    simp only [pySplitAux] at ht
    split at ht
    · simp at ht
    · rename_i hcne
      have htc : t = cur.reverse := by simpa using ht
      subst htc
      refine goodToken_reverse_of ?_ hcur
      intro hcon
      rw [hcon] at hcne
      exact hcne rfl
  | cons c cs ih =>
    intro cur hcur t ht
    by_cases hc : isPySpace c = true
    · rw [pySplitAux_space hc cs cur] at ht
      split at ht
      · exact ih [] (by simp) t ht
      · rename_i hcne
        rcases List.mem_cons.mp ht with rfl | ht
        · refine goodToken_reverse_of ?_ hcur
          intro hcon
          rw [hcon] at hcne
          exact hcne rfl
        · exact ih [] (by simp) t ht
    · simp only [Bool.not_eq_true] at hc
      simp only [pySplitAux, hc, Bool.false_eq_true, if_false] at ht
      refine ih (c :: cur) ?_ t ht
      intro x hx
      rcases List.mem_cons.mp hx with rfl | hx
      · exact hc
      · exact hcur x hx

theorem pySplit_goodTokens {l : List Char} : ∀ t ∈ pySplit l, goodToken t = true :=
  pySplitAux_goodTokens l [] (by simp)

/-! ## Stripping and splitting serialized point lines -/

theorem goodToken_ne_nil {f : List Char} (h : goodToken f = true) : f ≠ [] := by
  simp only [goodToken, Bool.and_eq_true, Bool.not_eq_true'] at h
  simpa [List.isEmpty_iff] using h.1

theorem goodToken_nospace {f : List Char} (h : goodToken f = true) :
    ∀ c ∈ f, isPySpace c = false := by
  simp only [goodToken, Bool.and_eq_true, List.all_eq_true] at h
  intro c hc
  simpa using h.2 c hc

theorem goodToken_of (f : List Char) (h1 : f ≠ []) (h2 : ∀ c ∈ f, isPySpace c = false) :
    goodToken f = true := by
  simp only [goodToken, Bool.and_eq_true, List.all_eq_true]
  exact ⟨by simpa [List.isEmpty_iff] using h1, fun c hc => by simpa using h2 c hc⟩

theorem goodToken_reverse {f : List Char} (h : goodToken f = true) :
    goodToken f.reverse = true :=
  goodToken_of _ (by simpa using goodToken_ne_nil h)
    (fun c hc => goodToken_nospace h c (List.mem_reverse.mp hc))

theorem noLead_append_of_goodToken {f rest : List Char} (h : goodToken f = true) :
    NoLead (f ++ rest) := by
  obtain ⟨c, t, rfl⟩ := List.exists_cons_of_ne_nil (goodToken_ne_nil h)
  exact noLead_cons (goodToken_nospace h c (List.mem_cons_self _ _))

theorem noLead_of_goodToken {f : List Char} (h : goodToken f = true) : NoLead f := by
  have := @noLead_append_of_goodToken f [] h
  simpa using this

theorem joinSep_cons_cons (sep : Char) (f g : List Char) (fs : List (List Char)) :
    joinSep sep (f :: g :: fs) = f ++ sep :: joinSep sep (g :: fs) := rfl

theorem joinSep_append_last (sep : Char) (last : List Char) :
    ∀ fields : List (List Char), fields ≠ [] →
      joinSep sep (fields ++ [last]) = joinSep sep fields ++ sep :: last := by
  intro fields
  induction fields with
  | nil => intro h; exact absurd rfl h
  | cons f fs ih =>
    intro _
    cases fs with
    | nil => rfl
    | cons g gs =>
      show f ++ sep :: joinSep sep ((g :: gs) ++ [last]) =
        (f ++ sep :: joinSep sep (g :: gs)) ++ sep :: last
      rw [ih (by simp)]
      simp [List.append_assoc]

theorem joinSep_head_append (sep : Char) (f : List Char) (fs : List (List Char)) :
    ∃ rest, joinSep sep (f :: fs) = f ++ rest := by
  cases fs with
  | nil => exact ⟨[], by simp [joinSep]⟩
  | cons g gs => exact ⟨_, rfl⟩

theorem noLead_joinSep {sep : Char} {f : List Char} {fs : List (List Char)}
    (h : goodToken f = true) : NoLead (joinSep sep (f :: fs)) := by
  obtain ⟨rest, hrest⟩ := joinSep_head_append sep f fs
  rw [hrest]
  exact noLead_append_of_goodToken h

theorem noLead_reverse_joinSep {fs0 : List (List Char)} {last : List Char}
    (hfs0 : fs0 ≠ []) (hlast : goodToken last = true) :
    NoLead (joinSep '\t' (fs0 ++ [last])).reverse := by
  rw [joinSep_append_last '\t' last fs0 hfs0]
  have hsh : (joinSep '\t' fs0 ++ '\t' :: last).reverse =
      last.reverse ++ ('\t' :: (joinSep '\t' fs0).reverse) := by
    simp [List.reverse_append]
  rw [hsh]
  exact noLead_append_of_goodToken (goodToken_reverse hlast)

theorem pyStrip_joinSep_eq {fs0 : List (List Char)} {last : List Char}
    (hfs0 : fs0 ≠ []) (hhead : ∀ f ∈ fs0, goodToken f = true)
    (hlast : goodToken last = true) :
    pyStrip (joinSep '\t' (fs0 ++ [last])) = joinSep '\t' (fs0 ++ [last]) := by
  apply pyStrip_eq_self
  · obtain ⟨f, fs, rfl⟩ := List.exists_cons_of_ne_nil hfs0
    rw [List.cons_append]
    exact noLead_joinSep (hhead f (List.mem_cons_self _ _))
  · exact noLead_reverse_joinSep hfs0 hlast

theorem getD_mem : ∀ (l : List (List Char)) (i : ℕ), i < l.length → l.getD i [] ∈ l := by
  intro l
  induction l with
  | nil => intro i h; simp at h
  | cons a t ih =>
    intro i h
    cases i with
    | zero => exact List.mem_cons_self _ _
    | succ j =>
      exact List.mem_cons_of_mem _ (ih j (by simpa using Nat.lt_of_succ_lt_succ h))

theorem startsWithL_hash_cons {c : Char} (t : List Char) (h : c ≠ '#') :
    startsWithL "#".data (c :: t) = false := by
  have hb : (('#' : Char) == c) = false := beq_eq_false_iff_ne.mpr (Ne.symm h)
  show startsWithL ['#'] (c :: t) = false
  simp [startsWithL, hb]

theorem classifyLine_of_split6 {line p1 p2 p3 p4 p5 fn : List Char}
    (hst : pyStrip line = line) (hne : line.isEmpty = false)
    (hnh : startsWithL "#".data line = false)
    (hsp : pySplit line = [p1, p2, p3, p4, p5, fn])
    {q1 q2 q3 q4 q5 : ℚ}
    (h1 : pyFloat p1 = some q1) (h2 : pyFloat p2 = some q2) (h3 : pyFloat p3 = some q3)
    (h4 : pyFloat p4 = some q4) (h5 : pyFloat p5 = some q5) :
    classifyLine line = .point q1 q2 q3 q4 q5 fn [] := by
  simp only [classifyLine, hst, hne, hnh, Bool.or_self, Bool.false_eq_true, if_false, hsp]
  simp [h1, h2, h3, h4, h5]

theorem classifyLine_of_split7 {line p1 p2 p3 p4 p5 fn gn : List Char}
    (hst : pyStrip line = line) (hne : line.isEmpty = false)
    (hnh : startsWithL "#".data line = false)
    (hsp : pySplit line = [p1, p2, p3, p4, p5, fn, gn])
    {q1 q2 q3 q4 q5 : ℚ}
    (h1 : pyFloat p1 = some q1) (h2 : pyFloat p2 = some q2) (h3 : pyFloat p3 = some q3)
    (h4 : pyFloat p4 = some q4) (h5 : pyFloat p5 = some q5) :
    classifyLine line = .point q1 q2 q3 q4 q5 fn gn := by
  simp only [classifyLine, hst, hne, hnh, Bool.or_self, Bool.false_eq_true, if_false, hsp]
  simp [h1, h2, h3, h4, h5]

/-- Classifying the serialized line of a good point recovers the point's
data: the save format parses back to the same record. -/
theorem classify_pointLine {g : GCPPoint} (hg : GoodPoint g) :
    classifyLine (pointLine g) = .point g.world_x g.world_y g.world_z g.image_x g.image_y
      g.filename g.gcp_name := by
  obtain ⟨hfn, hgn, hwx, hwy, hwz, hix, hiy⟩ := hg
  have hp1 := printFloat_goodToken g.world_x
  have hp2 := printFloat_goodToken g.world_y
  have hp3 := printFloat_goodToken g.world_z
  have hp4 := printFloat_goodToken g.image_x
  have hp5 := printFloat_goodToken g.image_y
  obtain ⟨c, r, hcr, hch, hcs⟩ := printFloat_head_no_hash g.world_x
  by_cases hgne : g.gcp_name.isEmpty = true
  · have hgnil : g.gcp_name = [] := by simpa [List.isEmpty_iff] using hgne
    have hfields : pointLine g = joinSep '\t'
        ([printFloat g.world_x, printFloat g.world_y, printFloat g.world_z,
          printFloat g.image_x, printFloat g.image_y] ++ [g.filename]) := by
      simp [pointLine, hgne]
    have hall : ∀ f ∈ ([printFloat g.world_x, printFloat g.world_y, printFloat g.world_z,
        printFloat g.image_x, printFloat g.image_y] ++ [g.filename]), goodToken f = true := by
      intro f hf
      simp only [List.mem_append, List.mem_cons, List.not_mem_nil, or_false,
        List.mem_singleton] at hf
      rcases hf with (rfl | rfl | rfl | rfl | rfl) | rfl <;> assumption
    have hstrip : pyStrip (pointLine g) = pointLine g := by
      rw [hfields]
      refine pyStrip_joinSep_eq (by simp) ?_ hfn
      intro f hf
      simp only [List.mem_cons, List.not_mem_nil, or_false] at hf
      rcases hf with rfl | rfl | rfl | rfl | rfl <;> assumption
    obtain ⟨rest, hr⟩ := joinSep_head_append '\t' (printFloat g.world_x)
      [printFloat g.world_y, printFloat g.world_z, printFloat g.image_x,
        printFloat g.image_y, g.filename]
    have hpl : pointLine g = c :: (r ++ rest) := by
      rw [hfields]
      show joinSep '\t' (printFloat g.world_x :: [printFloat g.world_y, printFloat g.world_z,
        printFloat g.image_x, printFloat g.image_y, g.filename]) = c :: (r ++ rest)
      rw [hr, hcr, List.cons_append]
    refine (classifyLine_of_split6 hstrip ?_ ?_ ?_ (pyFloat_printFloat hwx)
      (pyFloat_printFloat hwy) (pyFloat_printFloat hwz) (pyFloat_printFloat hix)
      (pyFloat_printFloat hiy)).trans (by rw [hgnil])
    · rw [hpl]
      rfl
    · rw [hpl]
      exact startsWithL_hash_cons _ hch
    · rw [hfields]
      exact pySplit_joinSep (by simp) hall
  · have hgnne : g.gcp_name ≠ [] := by
      intro hcon
      rw [hcon] at hgne
      exact hgne rfl
    have hgtok : goodToken g.gcp_name = true := goodToken_of _ hgnne hgn
    have hfields : pointLine g = joinSep '\t'
        ([printFloat g.world_x, printFloat g.world_y, printFloat g.world_z,
          printFloat g.image_x, printFloat g.image_y, g.filename] ++ [g.gcp_name]) := by
      simp [pointLine, hgne]
    have hall : ∀ f ∈ ([printFloat g.world_x, printFloat g.world_y, printFloat g.world_z,
        printFloat g.image_x, printFloat g.image_y, g.filename] ++ [g.gcp_name]),
        goodToken f = true := by
      intro f hf
      simp only [List.mem_append, List.mem_cons, List.not_mem_nil, or_false,
        List.mem_singleton] at hf
      rcases hf with (rfl | rfl | rfl | rfl | rfl | rfl) | rfl <;> assumption
    have hstrip : pyStrip (pointLine g) = pointLine g := by
      rw [hfields]
      refine pyStrip_joinSep_eq (by simp) ?_ hgtok
      intro f hf
      simp only [List.mem_cons, List.not_mem_nil, or_false] at hf
      rcases hf with rfl | rfl | rfl | rfl | rfl | rfl <;> assumption
    obtain ⟨rest, hr⟩ := joinSep_head_append '\t' (printFloat g.world_x)
      [printFloat g.world_y, printFloat g.world_z, printFloat g.image_x,
        printFloat g.image_y, g.filename, g.gcp_name]
    have hpl : pointLine g = c :: (r ++ rest) := by
      rw [hfields]
      show joinSep '\t' (printFloat g.world_x :: [printFloat g.world_y, printFloat g.world_z,
        printFloat g.image_x, printFloat g.image_y, g.filename, g.gcp_name]) = c :: (r ++ rest)
      rw [hr, hcr, List.cons_append]
    refine classifyLine_of_split7 hstrip ?_ ?_ ?_ (pyFloat_printFloat hwx)
      (pyFloat_printFloat hwy) (pyFloat_printFloat hwz) (pyFloat_printFloat hix)
      (pyFloat_printFloat hiy)
    · rw [hpl]
      rfl
    · rw [hpl]
      exact startsWithL_hash_cons _ hch
    · rw [hfields]
      exact pySplit_joinSep (by simp) hall

/-! ## Points produced by the loader are good -/

theorem classify_point_good {line : List Char} {wx wy wz ix iy : ℚ} {fn gn : List Char}
    (h : classifyLine line = .point wx wy wz ix iy fn gn) :
    goodToken fn = true ∧ (∀ c ∈ gn, isPySpace c = false) ∧
    IsDec wx ∧ IsDec wy ∧ IsDec wz ∧ IsDec ix ∧ IsDec iy := by
  simp only [classifyLine] at h
  split at h
  · exact absurd h (by simp)
  split at h
  case isTrue h6 =>
    rcases h0 : pyFloat ((pySplit (pyStrip line)).getD 0 []) with _ | q0 <;>
      rcases h1 : pyFloat ((pySplit (pyStrip line)).getD 1 []) with _ | q1 <;>
      rcases h2 : pyFloat ((pySplit (pyStrip line)).getD 2 []) with _ | q2 <;>
      rcases h3 : pyFloat ((pySplit (pyStrip line)).getD 3 []) with _ | q3 <;>
      rcases h4 : pyFloat ((pySplit (pyStrip line)).getD 4 []) with _ | q4 <;>
      simp only [h0, h1, h2, h3, h4] at h <;> cases h
    refine ⟨?_, ?_, pyFloat_isDec h0, pyFloat_isDec h1, pyFloat_isDec h2,
      pyFloat_isDec h3, pyFloat_isDec h4⟩
    · exact pySplit_goodTokens _ (getD_mem _ 5 (by omega))
    · by_cases h7 : 6 < (pySplit (pyStrip line)).length
      · rw [if_pos h7]
        exact goodToken_nospace (pySplit_goodTokens _ (getD_mem _ 6 (by omega)))
      · rw [if_neg h7]
        intro c hc
        simp at hc
  case isFalse h6 =>
    split at h
    case isTrue h4' =>
      rcases h1 : pyFloat ((pySplit (pyStrip line)).getD 1 []) with _ | q1 <;>
        rcases h2 : pyFloat ((pySplit (pyStrip line)).getD 2 []) with _ | q2 <;>
        rcases h3 : pyFloat ((pySplit (pyStrip line)).getD 3 []) with _ | q3 <;>
        simp only [h1, h2, h3] at h <;> cases h
    case isFalse h4' => cases h

theorem parseFold_good {ls : List (List Char)} :
    ∀ (n : ℕ) (acc : List GCPPoint), (∀ g ∈ acc, GoodPoint g) →
      ∀ g ∈ parseFold ls n acc, GoodPoint g := by
  induction ls with
  | nil => intro n acc hacc; exact hacc
  | cons l ls ih =>
    intro n acc hacc
    cases hc : classifyLine l with
    | point wx wy wz ix iy fn gn =>
      have hgood := classify_point_good hc
      simp only [parseFold, hc]
      apply ih
      intro g hg
      rcases List.mem_append.mp hg with hg | hg
      · exact hacc g hg
      · have hgr : g = ⟨acc.length + 1, wx, wy, wz, ix, iy, fn, gn, n⟩ := by simpa using hg
        subst hgr
        exact ⟨hgood.1, hgood.2.1, hgood.2.2.1, hgood.2.2.2.1, hgood.2.2.2.2.1,
          hgood.2.2.2.2.2.1, hgood.2.2.2.2.2.2⟩
    | skip => simp only [parseFold, hc]; exact ih (n + 1) acc hacc
    | errNumeric => simp only [parseFold, hc]; exact ih (n + 1) acc hacc
    | errIncomplete => simp only [parseFold, hc]; exact ih (n + 1) acc hacc
    | errFour => simp only [parseFold, hc]; exact ih (n + 1) acc hacc
    | errFieldCount => simp only [parseFold, hc]; exact ih (n + 1) acc hacc

theorem load_good {lines : List (List Char)} {r : LoadResult}
    (h : load_gcp_core lines = some r) : ∀ g ∈ r.points, GoodPoint g := by
  unfold load_gcp_core at h
  by_cases he : lines.isEmpty
  · simp [he] at h
  · cases hp : isProjectionLine (pyStrip (lines.head?.getD [])) <;>
      · simp [he, hp] at h
        subst h
        exact parseFold_good _ _ (by intro g hg; simp at hg)

theorem load_projection {lines : List (List Char)} {r : LoadResult}
    (h : load_gcp_core lines = some r) :
    isProjectionLine r.projection = true ∧ r.projection ≠ [] := by
  unfold load_gcp_core at h
  by_cases he : lines.isEmpty
  · simp [he] at h
  · cases hp : isProjectionLine (pyStrip (lines.head?.getD []))
    · simp [he, hp] at h
      subst h
      exact ⟨(by decide : isProjectionLine EPSG4326 = true), (by decide : EPSG4326 ≠ [])⟩
    · simp [he, hp] at h
      subst h
      refine ⟨hp, ?_⟩
      intro hcon
      have hcon2 : pyStrip (lines.head?.getD []) = [] := hcon
      rw [hcon2] at hp
      exact absurd hp (by decide)

theorem isProjectionLine_pyStrip_eq (x : List Char) :
    isProjectionLine (pyStrip x) = isProjectionLine x := by
  unfold isProjectionLine
  rw [pyStrip_idem]

/-! ## Reparsing the saved file -/

theorem comment1_skip : classifyLine "# GCP file generated by ODM Frontend".data = .skip := by
  decide

theorem comment2_skip : classifyLine "# Compatible with OpenDroneMap/WebODM".data = .skip := by
  decide

theorem comment3_skip :
    classifyLine "# Format: geo_x geo_y geo_z im_x im_y filename [gcp_name]".data = .skip := by
  decide

theorem comment4_skip : classifyLine "# Fields separated by tabs".data = .skip := by
  decide

theorem parseFold_skip {l : List Char} (hc : classifyLine l = .skip)
    (ls : List (List Char)) (n : ℕ) (acc : List GCPPoint) :
    parseFold (l :: ls) n acc = parseFold ls (n + 1) acc := by
  simp [parseFold, hc]

theorem parseFold_comments (X : List (List Char)) :
    parseFold (gcpHeaderComments ++ X) 2 [] = parseFold X 6 [] := by
  have e : gcpHeaderComments ++ X =
      "# GCP file generated by ODM Frontend".data ::
      "# Compatible with OpenDroneMap/WebODM".data ::
      "# Format: geo_x geo_y geo_z im_x im_y filename [gcp_name]".data ::
      "# Fields separated by tabs".data :: X := rfl
  rw [e, parseFold_skip comment1_skip, parseFold_skip comment2_skip,
    parseFold_skip comment3_skip, parseFold_skip comment4_skip]

theorem parseFold_pointLines {pts : List GCPPoint} (hg : ∀ g ∈ pts, GoodPoint g) :
    ∀ (n : ℕ) (acc : List GCPPoint),
      (parseFold (pts.map pointLine) n acc).map dataOf =
        acc.map dataOf ++ pts.map dataOf := by
  induction pts with
  | nil => intro n acc; simp [parseFold]
  | cons g gs ih =>
    intro n acc
    have hcg := classify_pointLine (hg g (List.mem_cons_self _ _))
    simp only [List.map_cons, parseFold, hcg]
    rw [ih (fun x hx => hg x (List.mem_cons_of_mem _ hx))]
    simp [dataOf]

/-! ## C1: save/load round trip -/

/-- C1: for every point list produced by parsing a GCP file, serializing it
with save_gcp_file and parsing the written lines again yields the same
sequence of point data — world coordinates, image coordinates, filename and
optional label — with the ids renumbered to the dense sequence 1..N. -/
theorem C1_save_load_roundtrip {lines : List (List Char)} {r : LoadResult}
    (hload : load_gcp_core lines = some r) (hne : r.points ≠ []) :
    ∃ saved r2, save_gcp_file r.projection r.points = some saved ∧
      load_gcp_core saved = some r2 ∧
      r2.points.map dataOf = r.points.map dataOf ∧
      denseIds r2.points = true := by
  obtain ⟨hproj, hprojne⟩ := load_projection hload
  have hgood := load_good hload
  have hpe : r.points.isEmpty = false := by
    rcases hpp : r.points with _ | ⟨p, ps⟩
    · exact absurd hpp hne
    · rfl
  have hprojE : r.projection.isEmpty = false := by
    rcases hpp : r.projection with _ | ⟨c, cs⟩
    · exact absurd hpp hprojne
    · rfl
  refine ⟨save_gcp_lines r.projection r.points,
    ⟨pyStrip r.projection, parseFold (r.points.map pointLine) 6 []⟩, ?_, ?_, ?_, ?_⟩
  · simp [save_gcp_file, hpe]
  · have hlines : save_gcp_lines r.projection r.points =
        r.projection :: (gcpHeaderComments ++ r.points.map pointLine) := by
      simp [save_gcp_lines, hprojE]
    rw [hlines]
    unfold load_gcp_core
    have he : (r.projection :: (gcpHeaderComments ++ r.points.map pointLine)).isEmpty
        = false := rfl
    rw [he]
    simp only [Bool.false_eq_true, if_false]
    have hhd : (r.projection :: (gcpHeaderComments ++ r.points.map pointLine)).headD []
        = r.projection := rfl
    have hcond : isProjectionLine (pyStrip ((r.projection ::
        (gcpHeaderComments ++ r.points.map pointLine)).headD [])) = true := by
      rw [hhd, isProjectionLine_pyStrip_eq]
      exact hproj
    rw [if_pos hcond, hhd]
    have htl : (r.projection :: (gcpHeaderComments ++ r.points.map pointLine)).tail
        = gcpHeaderComments ++ r.points.map pointLine := rfl
    rw [htl, parseFold_comments]
  · simpa using parseFold_pointLines hgood 6 []
  · exact parseFold_dense _ 6 [] rfl

/-- Witness for C1: a two-line file — a projection line and one data line —
loads, and the loaded result saves and reloads to the same point data. -/
theorem C1_save_load_roundtrip_witness :
    ∃ saved r2,
      save_gcp_file "EPSG:32612".data
        [⟨1, 1, 2, 3, 4, 5, "img.jpg".data, [], 2⟩] = some saved ∧
      load_gcp_core saved = some r2 ∧
      r2.points.map dataOf =
        [(⟨1, 1, 2, 3, 4, 5, "img.jpg".data, [], 2⟩ : GCPPoint)].map dataOf ∧
      denseIds r2.points = true := by
  have h1 : pyFloat "1".data = some (1 : ℚ) := by
    simp [pyFloat, parseMantissa, applyExp, splitAtFirst, takeSign, charDigit, digitsVal,
      mapDigits]
  have h2 : pyFloat "2".data = some (2 : ℚ) := by
    simp [pyFloat, parseMantissa, applyExp, splitAtFirst, takeSign, charDigit, digitsVal,
      mapDigits]
  have h3 : pyFloat "3".data = some (3 : ℚ) := by
    simp [pyFloat, parseMantissa, applyExp, splitAtFirst, takeSign, charDigit, digitsVal,
      mapDigits]
  have h4 : pyFloat "4".data = some (4 : ℚ) := by
    simp [pyFloat, parseMantissa, applyExp, splitAtFirst, takeSign, charDigit, digitsVal,
      mapDigits]
  have h5 : pyFloat "5".data = some (5 : ℚ) := by
    simp [pyFloat, parseMantissa, applyExp, splitAtFirst, takeSign, charDigit, digitsVal,
      mapDigits]
  have hc : classifyLine "1 2 3 4 5 img.jpg".data = .point 1 2 3 4 5 "img.jpg".data [] :=
    classifyLine_of_split6 (by decide) (by decide) (by decide) (by decide) h1 h2 h3 h4 h5
  have hload : load_gcp_core ["EPSG:32612".data, "1 2 3 4 5 img.jpg".data] =
      some ⟨"EPSG:32612".data, [⟨1, 1, 2, 3, 4, 5, "img.jpg".data, [], 2⟩]⟩ := by
    unfold load_gcp_core
    have he : (["EPSG:32612".data, "1 2 3 4 5 img.jpg".data] :
        List (List Char)).isEmpty = false := rfl
    rw [he]
    simp only [Bool.false_eq_true, if_false]
    have hcond : isProjectionLine (pyStrip ((["EPSG:32612".data,
        "1 2 3 4 5 img.jpg".data] : List (List Char)).headD [])) = true := by decide
    rw [if_pos hcond]
    have htl : parseFold ((["EPSG:32612".data, "1 2 3 4 5 img.jpg".data] :
        List (List Char)).tail) 2 [] = [⟨1, 1, 2, 3, 4, 5, "img.jpg".data, [], 2⟩] := by
      show parseFold ["1 2 3 4 5 img.jpg".data] 2 [] = _
      simp only [parseFold, hc]
      rfl
    rw [htl]
    rfl
  exact C1_save_load_roundtrip hload (by simp)

/-! ## C6: per-line classification of GCP data lines -/

/-- C6: for every non-blank, non-#-prefixed data line of a GCP file, with
`parts` its whitespace-split fields: (i) 6 or more fields with fields 0-4
numeric yield one valid point record; (ii) 6 or more fields with a numeric
parse failure among fields 0-4 yield the per-line numeric-parse error;
(iii) exactly 4 fields whose last three parse as numbers yield the specific
incomplete-GCP error, not the generic one; (iv) any other field count —
including exactly 5 fields — yields the generic field-count error; and
(v) every non-point classification skips only that line: the parse fold
continues on the remaining lines with the accumulator unchanged. -/
theorem C6_line_classification (line : List Char) (parts : List (List Char))
    (hparts : pySplit (pyStrip line) = parts)
    (hne : (pyStrip line).isEmpty = false)
    (hnh : startsWithL "#".data (pyStrip line) = false) :
    (∀ wx wy wz ix iy : ℚ, 6 ≤ parts.length →
      pyFloat (parts.getD 0 []) = some wx → pyFloat (parts.getD 1 []) = some wy →
      pyFloat (parts.getD 2 []) = some wz → pyFloat (parts.getD 3 []) = some ix →
      pyFloat (parts.getD 4 []) = some iy →
      classifyLine line = .point wx wy wz ix iy (parts.getD 5 [])
        (if 6 < parts.length then parts.getD 6 [] else [])) ∧
    (6 ≤ parts.length →
      (pyFloat (parts.getD 0 []) = none ∨ pyFloat (parts.getD 1 []) = none ∨
       pyFloat (parts.getD 2 []) = none ∨ pyFloat (parts.getD 3 []) = none ∨
       pyFloat (parts.getD 4 []) = none) →
      classifyLine line = .errNumeric) ∧
    (parts.length = 4 → ∀ q1 q2 q3 : ℚ,
      pyFloat (parts.getD 1 []) = some q1 → pyFloat (parts.getD 2 []) = some q2 →
      pyFloat (parts.getD 3 []) = some q3 → classifyLine line = .errIncomplete) ∧
    (parts.length < 6 → parts.length ≠ 4 → classifyLine line = .errFieldCount) ∧
    (∀ (ls : List (List Char)) (m : ℕ) (acc : List GCPPoint),
      (∀ wx wy wz ix iy fn gn, classifyLine line ≠ .point wx wy wz ix iy fn gn) →
      parseFold (line :: ls) m acc = parseFold ls (m + 1) acc) := by
  refine ⟨?_, ?_, ?_, ?_, ?_⟩
  · intro wx wy wz ix iy h6 h0 h1 h2 h3 h4
    simp only [List.getD_eq_getElem?_getD] at h0 h1 h2 h3 h4
    simp only [classifyLine, hne, hnh, Bool.or_self, Bool.false_eq_true, if_false, hparts]
    rw [if_pos h6]
    simp [h0, h1, h2, h3, h4]
  · intro h6 hbad
    simp only [classifyLine, hne, hnh, Bool.or_self, Bool.false_eq_true, if_false, hparts]
    rw [if_pos h6]
    rcases e0 : pyFloat (parts.getD 0 []) with _ | q0 <;>
      rcases e1 : pyFloat (parts.getD 1 []) with _ | q1 <;>
      rcases e2 : pyFloat (parts.getD 2 []) with _ | q2 <;>
      rcases e3 : pyFloat (parts.getD 3 []) with _ | q3 <;>
      rcases e4 : pyFloat (parts.getD 4 []) with _ | q4 <;>
      simp only [e0, e1, e2, e3, e4] <;>
      first
        | rfl
        | (rcases hbad with h | h | h | h | h <;> simp_all)
  · intro h4 q1 q2 q3 hq1 hq2 hq3
    simp only [List.getD_eq_getElem?_getD] at hq1 hq2 hq3
    simp only [classifyLine, hne, hnh, Bool.or_self, Bool.false_eq_true, if_false, hparts]
    have h6' : ¬ (6 ≤ parts.length) := by omega
    rw [if_neg h6', if_pos h4]
    simp [hq1, hq2, hq3]
  · intro hlt h4
    simp only [classifyLine, hne, hnh, Bool.or_self, Bool.false_eq_true, if_false, hparts]
    have h6' : ¬ (6 ≤ parts.length) := by omega
    rw [if_neg h6', if_neg h4]
  · intro ls m acc hnp
    cases hc : classifyLine line with
    | point wx wy wz ix iy fn gn => exact absurd hc (hnp wx wy wz ix iy fn gn)
    | skip => simp [parseFold, hc]
    | errNumeric => simp [parseFold, hc]
    | errIncomplete => simp [parseFold, hc]
    | errFour => simp [parseFold, hc]
    | errFieldCount => simp [parseFold, hc]

/-- Witness for C6: the specification's example line parses to exactly the
stated record, and a genuine five-field line is rejected with the generic
field-count error. -/
theorem C6_line_classification_witness :
    classifyLine "544256.7 5320919.9 5 3044 2622 IMG_0525.jpg GCP01".data =
      .point (5442567 / 10) (53209199 / 10) 5 3044 2622
        "IMG_0525.jpg".data "GCP01".data ∧
    classifyLine "1 2 3 4 5".data = .errFieldCount := by
  constructor
  · have h0 : pyFloat "544256.7".data = some (5442567 / 10 : ℚ) := by
      simp [pyFloat, parseMantissa, applyExp, splitAtFirst, takeSign, charDigit, digitsVal,
        mapDigits]
      norm_num
    have h1 : pyFloat "5320919.9".data = some (53209199 / 10 : ℚ) := by
      simp [pyFloat, parseMantissa, applyExp, splitAtFirst, takeSign, charDigit, digitsVal,
        mapDigits]
      norm_num
    have h2 : pyFloat "5".data = some (5 : ℚ) := by
      simp [pyFloat, parseMantissa, applyExp, splitAtFirst, takeSign, charDigit, digitsVal,
        mapDigits]
    have h3 : pyFloat "3044".data = some (3044 : ℚ) := by
      simp [pyFloat, parseMantissa, applyExp, splitAtFirst, takeSign, charDigit, digitsVal,
        mapDigits]
    have h4 : pyFloat "2622".data = some (2622 : ℚ) := by
      simp [pyFloat, parseMantissa, applyExp, splitAtFirst, takeSign, charDigit, digitsVal,
        mapDigits]
    exact (C6_line_classification
        "544256.7 5320919.9 5 3044 2622 IMG_0525.jpg GCP01".data
        ["544256.7".data, "5320919.9".data, "5".data, "3044".data, "2622".data,
         "IMG_0525.jpg".data, "GCP01".data] (by decide) (by decide) (by decide)).1
      _ _ _ _ _ (by decide) h0 h1 h2 h3 h4
  · exact (C6_line_classification "1 2 3 4 5".data
        ["1".data, "2".data, "3".data, "4".data, "5".data]
        (by decide) (by decide) (by decide)).2.2.2.1 (by decide) (by decide)

/-! ## C10: empty filenames break the round trip -/

theorem pyStrip_append_tab {fs : List (List Char)}
    (hfs : fs ≠ []) (hgood : ∀ f ∈ fs, goodToken f = true) :
    pyStrip (joinSep '\t' fs ++ ['\t']) = joinSep '\t' fs := by
  obtain ⟨f, fs', rfl⟩ := List.exists_cons_of_ne_nil hfs
  have hlead : NoLead (joinSep '\t' (f :: fs') ++ ['\t']) := by
    obtain ⟨rest, hr⟩ := joinSep_head_append '\t' f fs'
    rw [hr, List.append_assoc]
    exact noLead_append_of_goodToken (hgood f (List.mem_cons_self _ _))
  have hrevlead : NoLead (joinSep '\t' (f :: fs')).reverse := by
    rcases List.eq_nil_or_concat (f :: fs') with hnil | ⟨fs0, last, hconcat⟩
    · exact absurd hnil (by simp)
    · rw [List.concat_eq_append] at hconcat
      have hlastg : goodToken last = true := hgood last (by rw [hconcat]; simp)
      rcases fs0 with _ | ⟨g0, gs0⟩
      · rw [hconcat]
        have he : joinSep '\t' ([] ++ [last]) = last := rfl
        rw [he]
        exact noLead_of_goodToken (goodToken_reverse hlastg)
      · rw [hconcat]
        exact noLead_reverse_joinSep (by simp) hlastg
  unfold pyStrip
  rw [dropLeading_eq_self hlead]
  have hrv : (joinSep '\t' (f :: fs') ++ ['\t']).reverse =
      '\t' :: (joinSep '\t' (f :: fs')).reverse := by simp
  rw [hrv]
  have htab : isPySpace '\t' = true := by decide
  have hstep : dropLeading ('\t' :: (joinSep '\t' (f :: fs')).reverse) =
      dropLeading (joinSep '\t' (f :: fs')).reverse := by
    simp [dropLeading, htab]
  rw [hstep, dropLeading_eq_self hrevlead, List.reverse_reverse]

/-- C10 (implicit): a GCP point whose filename is the empty string (which the
Add GCP Point dialog permits, and which is stored with no gcp_name)
serializes to a data line whose whitespace split has only five fields; the
loader rejects that line with the generic field-count error, and no point
produced by the loader ever has an empty filename — so the
serialize-then-parse round trip cannot reproduce such a point. -/
theorem C10_empty_filename_breaks_roundtrip (g : GCPPoint)
    (hfn : g.filename = []) (hgn : g.gcp_name = []) :
    (pySplit (pyStrip (pointLine g))).length = 5 ∧
    classifyLine (pointLine g) = .errFieldCount ∧
    (∀ lines r, load_gcp_core lines = some r → ∀ p ∈ r.points, p.filename ≠ []) := by
  have hp1 := printFloat_goodToken g.world_x
  have hp2 := printFloat_goodToken g.world_y
  have hp3 := printFloat_goodToken g.world_z
  have hp4 := printFloat_goodToken g.image_x
  have hp5 := printFloat_goodToken g.image_y
  have hgood : ∀ f ∈ [printFloat g.world_x, printFloat g.world_y, printFloat g.world_z,
      printFloat g.image_x, printFloat g.image_y], goodToken f = true := by
    intro f hf
    simp only [List.mem_cons, List.not_mem_nil, or_false] at hf
    rcases hf with rfl | rfl | rfl | rfl | rfl <;> assumption
  have hfields : pointLine g = joinSep '\t' [printFloat g.world_x, printFloat g.world_y,
      printFloat g.world_z, printFloat g.image_x, printFloat g.image_y] ++ ['\t'] := by
    have h6 : pointLine g = joinSep '\t'
        ([printFloat g.world_x, printFloat g.world_y, printFloat g.world_z,
          printFloat g.image_x, printFloat g.image_y] ++ [([] : List Char)]) := by
      simp [pointLine, hgn, hfn]
    rw [h6, joinSep_append_last '\t' ([] : List Char) _ (by simp)]
  have hstrip : pyStrip (pointLine g) = joinSep '\t' [printFloat g.world_x,
      printFloat g.world_y, printFloat g.world_z, printFloat g.image_x,
      printFloat g.image_y] := by
    rw [hfields]
    exact pyStrip_append_tab (by simp) hgood
  have hsplit : pySplit (pyStrip (pointLine g)) = [printFloat g.world_x,
      printFloat g.world_y, printFloat g.world_z, printFloat g.image_x,
      printFloat g.image_y] := by
    rw [hstrip]
    exact pySplit_joinSep (by simp) hgood
  refine ⟨by rw [hsplit]; rfl, ?_, ?_⟩
  · have hlne : (pyStrip (pointLine g)).isEmpty = false := by
      rw [hstrip]
      obtain ⟨c, rr, hcr, hch, hcs⟩ := printFloat_head_no_hash g.world_x
      obtain ⟨rest, hr⟩ := joinSep_head_append '\t' (printFloat g.world_x)
        [printFloat g.world_y, printFloat g.world_z, printFloat g.image_x,
         printFloat g.image_y]
      rw [hr, hcr]
      rfl
    have hlnh : startsWithL "#".data (pyStrip (pointLine g)) = false := by
      rw [hstrip]
      obtain ⟨c, rr, hcr, hch, hcs⟩ := printFloat_head_no_hash g.world_x
      obtain ⟨rest, hr⟩ := joinSep_head_append '\t' (printFloat g.world_x)
        [printFloat g.world_y, printFloat g.world_z, printFloat g.image_x,
         printFloat g.image_y]
      rw [hr, hcr, List.cons_append]
      exact startsWithL_hash_cons _ hch
    simp only [classifyLine, hlne, hlnh, Bool.or_self, Bool.false_eq_true, if_false, hsplit]
    rfl
  · intro lines r hload p hp
    exact goodToken_ne_nil ((load_good hload p hp).1)

/-- Witness for C10 at a concrete point with an empty filename. -/
theorem C10_empty_filename_breaks_roundtrip_witness :
    (pySplit (pyStrip (pointLine ⟨1, 1, 2, 3, 4, 5, [], [], 0⟩))).length = 5 ∧
    classifyLine (pointLine ⟨1, 1, 2, 3, 4, 5, [], [], 0⟩) = .errFieldCount :=
  ⟨(C10_empty_filename_breaks_roundtrip ⟨1, 1, 2, 3, 4, 5, [], [], 0⟩ rfl rfl).1,
   (C10_empty_filename_breaks_roundtrip ⟨1, 1, 2, 3, 4, 5, [], [], 0⟩ rfl rfl).2.1⟩

end ODM
